import Mathlib

/-!
# Sugoku: candidate computation, MRV selection, solution counting, generation, stepwise solver

Shallow embedding of `src/solver.go`, `src/action.go` and the clue-removal loop of
`src/main.go`.

Conventions of the embedding.
* The Go array `[N]int` (N = 81) is a function `Fin 81 → Int`; an index that Go would
  compute as `row*9+i` is the same number, packaged with the bound that keeps the Go
  access inside the array.
* `uint16` values are natural numbers; the one place where a `uint16` result can leave
  sixteen bits (`1 << v`) is reduced `% 65536`.
* A Go run-time panic (shift by a negative count) is the result `none`.
* The sentinel index `-1` returned by `findBestEmpty` is `none : Option (Fin 81)`.
* Recursive Go functions take a fuel argument; the entry points supply 82, one more than
  the number of cells, and the theorems show that a result is produced.
-/

namespace Sugoku

/-! ## Data model -/

/-- Board size, the constant `N` of main.go. -/
abbrev N : Nat := 81

/-- The Go type `[N]int`. -/
abbrev Grid := Fin 81 → Int

/-- Assignment `grid[i] = v`. -/
def setCell (g : Grid) (i : Fin 81) (v : Int) : Grid := Function.update g i v

/-! ## candidatesMask -/

/-- The statement `used |= 1 << v` on a `uint16`, with `v` an `int`:
panics for a negative count, and bits shifted past bit 15 are lost. -/
def orShift (used : Nat) (v : Int) : Option Nat :=
  if v < 0 then none else some (used ||| ((1 <<< v.toNat) % 65536))

/-- The guarded update `if v := grid[k]; v != 0 { used |= 1 << v }`. -/
def markCell (grid : Grid) (used : Nat) (k : Fin 81) : Option Nat :=
  if grid k ≠ 0 then orShift used (grid k) else some used

/-- Index `row*9+i` of the first loop of `candidatesMask`. -/
def rowCell (row i : Fin 9) : Fin 81 := ⟨row.val * 9 + i.val, by omega⟩

/-- Index `i*9+col` of the first loop of `candidatesMask`. -/
def colCell (col i : Fin 9) : Fin 81 := ⟨i.val * 9 + col.val, by omega⟩

/-- Index `(br+dr)*9+(bc+dc)` of the box loop, with `br = (row/3)*3`, `bc = (col/3)*3`. -/
def boxCell (row col : Fin 9) (dr dc : Fin 3) : Fin 81 :=
  ⟨((row.val / 3) * 3 + dr.val) * 9 + ((col.val / 3) * 3 + dc.val), by omega⟩

/-- One iteration of `for i := 0; i < 9; i++` : the row cell, then the column cell. -/
def rowColStep (grid : Grid) (row col : Fin 9) (used : Nat) (i : Fin 9) : Option Nat :=
  (markCell grid used (rowCell row i)).bind (fun u => markCell grid u (colCell col i))

/-- One iteration of the outer box loop `for dr := 0; dr < 3; dr++`. -/
def boxRowStep (grid : Grid) (row col : Fin 9) (used : Nat) (dr : Fin 3) : Option Nat :=
  (List.finRange 3).foldlM (fun u dc => markCell grid u (boxCell row col dr dc)) used

/-- The loop `for d := 1; d <= 9; d++ { all |= 1 << d }`. -/
def allMask : Nat := (List.range' 1 9).foldl (fun a d => a ||| ((1 <<< d) % 65536)) 0

/-- The function `candidatesMask` of solver.go; the last line `all &^ used` (and-not on
`uint16`) is `all &&& (used ^^^ 0xFFFF)`. -/
def candidatesMask (grid : Grid) (idx : Fin 81) : Option Nat :=
  if grid idx ≠ 0 then some 0
  else
    let row : Fin 9 := ⟨idx.val / 9, by omega⟩
    let col : Fin 9 := ⟨idx.val % 9, by omega⟩
    ((List.finRange 9).foldlM (rowColStep grid row col) 0).bind fun used =>
    ((List.finRange 3).foldlM (boxRowStep grid row col) used).bind fun used =>
    some (allMask &&& (used ^^^ 65535))

/-- The function `maskToDigits` of solver.go. -/
def maskToDigits (mask : Nat) : List Int :=
  ((List.range' 1 9).filter (fun d => mask &&& (1 <<< d) ≠ 0)).map (fun d : Nat => (d : Int))

/-- The library function `bits.OnesCount16`: number of set bits among bits 0..15. -/
def onesCount16 (m : Nat) : Nat := ((List.range 16).filter (fun k => m.testBit k)).length

/-! ## findBestEmpty -/

/-- The result triple `(idx, mask, ok)` of `findBestEmpty`; `idx = none` is Go's `-1`. -/
structure Found where
  idx : Option (Fin 81)
  mask : Nat
  ok : Bool
deriving DecidableEq, Repr

/-- The code after the loop of `findBestEmpty`. -/
def findFinish (bestIdx : Option (Fin 81)) (bestMask : Nat) : Found :=
  match bestIdx with
  | none => ⟨none, 0, true⟩
  | some i => ⟨some i, bestMask, true⟩

/-- The loop `for i := 0; i < N; i++` of `findBestEmpty`, over the indices still to visit,
with the loop variables `bestIdx`, `bestMask`, `bestCount`. -/
def findLoop (grid : Grid) :
    List (Fin 81) → Option (Fin 81) → Nat → Nat → Option Found
  | [], bestIdx, bestMask, _ => some (findFinish bestIdx bestMask)
  | i :: rest, bestIdx, bestMask, bestCount =>
    if grid i ≠ 0 then findLoop grid rest bestIdx bestMask bestCount
    else
      match candidatesMask grid i with
      | none => none
      | some m =>
        let c := onesCount16 m
        if c = 0 then some ⟨none, 0, false⟩
        else if c < bestCount then
          if c = 1 then some (findFinish (some i) m)
          else findLoop grid rest (some i) m c
        else findLoop grid rest bestIdx bestMask bestCount

/-- The function `findBestEmpty` of solver.go. -/
def findBestEmpty (grid : Grid) : Option Found :=
  findLoop grid (List.finRange 81) none 0 10

/-! ## countSolutions -/

/-- The loop `for d := 1; d <= 9; d++` of the closure `rec` in `countSolutions`; `rec` is the
recursive call, which works on the shared array and hands it back. -/
def countLoop (rec : Grid → Option (Int × Grid)) (idx : Fin 81) (mask : Nat) (limit : Int) :
    List Nat → Grid → Int → Option (Int × Grid)
  | [], g, total => some (total, g)
  | d :: ds, g, total =>
    if mask &&& (1 <<< d) = 0 then countLoop rec idx mask limit ds g total
    else
      match rec (setCell g idx (d : Int)) with
      | none => none
      | some (r, g1) =>
        if total + r ≥ limit then some (total + r, setCell g1 idx 0)
        else countLoop rec idx mask limit ds (setCell g1 idx 0) (total + r)

/-- The closure `rec` of `countSolutions`. The running total is an unbounded integer: it
never exceeds `82 * limit` (`countSolutions_le`), so a Go `int` holds it for every `limit`
below `2^56`. -/
def countRec (limit : Int) : Nat → Grid → Option (Int × Grid)
  | 0, _ => none
  | fuel + 1, g =>
    match findBestEmpty g with
    | none => none
    | some r =>
      if r.ok = false then some (0, g)
      else
        match r.idx with
        | none => some (1, g)
        | some idx => countLoop (countRec limit fuel) idx r.mask limit (List.range' 1 9) g 0

/-- The function `countSolutions` of solver.go: `rec` runs on the copy `tmp` of the grid. -/
def countSolutions (grid : Grid) (limit : Int) : Option Int :=
  (countRec limit 82 grid).map Prod.fst

/-! ## The random source -/

/-- The random source `*rand.Rand` of the Go library: a stream of raw draws and the number
of draws consumed so far. A call `Intn(n)` yields the next draw reduced modulo `n`. -/
structure Rng where
  draws : Nat → Nat
  pos : Nat

/-- The swap callback `digs[i], digs[j] = digs[j], digs[i]`. -/
def swapAt (xs : List Int) (i j : Nat) : List Int :=
  (xs.set i (xs.getD j 0)).set j (xs.getD i 0)

/-- The loop `for i := n-1; i > 0; i-- { j := Intn(i+1); swap(i, j) }` of the library
function `rand.Shuffle`, entered with `i = k`. -/
def shuffleLoop : Nat → List Int → Rng → List Int × Rng
  | 0, xs, r => (xs, r)
  | i + 1, xs, r =>
    shuffleLoop i (swapAt xs (i + 1) (r.draws r.pos % (i + 2))) ⟨r.draws, r.pos + 1⟩

/-- The call `rng.Shuffle(len(xs), swap)`. -/
def shuffle (xs : List Int) (r : Rng) : List Int × Rng :=
  shuffleLoop (xs.length - 1) xs r

/-! ## fillRandom -/

/-- The loop `for _, d := range digs` of `fillRandom`; `rec` is the recursive call. -/
def fillLoop (rec : Grid → Rng → Option (Bool × Grid × Rng)) (idx : Fin 81) :
    List Int → Grid → Rng → Option (Bool × Grid × Rng)
  | [], g, r => some (false, g, r)
  | d :: ds, g, r =>
    match rec (setCell g idx d) r with
    | none => none
    | some (true, g1, r1) => some (true, g1, r1)
    | some (false, g1, r1) => fillLoop rec idx ds (setCell g1 idx 0) r1

/-- The function `fillRandom` of solver.go, returning the result together with the grid
and the random source it leaves behind. -/
def fillRandom : Nat → Grid → Rng → Option (Bool × Grid × Rng)
  | 0, _, _ => none
  | fuel + 1, g, r =>
    match findBestEmpty g with
    | none => none
    | some f =>
      if f.ok = false then some (false, g, r)
      else
        match f.idx with
        | none => some (true, g, r)
        | some idx =>
          fillLoop (fillRandom fuel) idx (shuffle (maskToDigits f.mask) r).1 g
            (shuffle (maskToDigits f.mask) r).2

/-- The grid `var full [N]int`: all cells zero. -/
def emptyGrid : Grid := fun _ => 0

/-! ## The clue-removal loop of newPuzzle -/

/-- The loop `for _, pos := range perm` of `newPuzzle`, with the variables `puz`, `clues`
and the target `diff.Clues`. -/
def carveLoop (target : Int) : List (Fin 81) → Grid → Int → Option (Grid × Int)
  | [], puz, clues => some (puz, clues)
  | pos :: rest, puz, clues =>
    if clues ≤ target then some (puz, clues)
    else
      match countSolutions (setCell puz pos 0) 2 with
      | none => none
      | some n =>
        if n ≠ 1 then carveLoop target rest (setCell (setCell puz pos 0) pos (puz pos)) clues
        else carveLoop target rest (setCell puz pos 0) (clues - 1)

/-- Step 2 of `newPuzzle`: `puz := full`, `clues := N`, then the loop; the result is the
puzzle stored in the game. -/
def carve (full : Grid) (perm : List (Fin 81)) (target : Int) : Option Grid :=
  (carveLoop target perm full 81).map Prod.fst

/-! ## The stepwise solver -/

/-- The type `ActionKind` of action.go. -/
inductive ActionKind where
  | ActionNone
  | ActionChoose
  | ActionTry
  | ActionBacktrack
  | ActionSolved
  | ActionFailed
deriving DecidableEq, Repr

/-- The type `Action` of action.go. -/
structure Action where
  Kind : ActionKind
  Idx : Int
  Value : Int
  CandCount : Int
  Depth : Int
deriving DecidableEq, Repr

/-- The type `Frame` of solver.go. -/
structure Frame where
  idx : Fin 81
  candidates : List Int
  next : Nat
deriving DecidableEq, Repr

/-- The type `Solver` of solver.go, without its two time fields (`wall`, `compute`), which
`step` does not touch. The stack is in Go's order: the top frame is the last element. -/
structure Solver where
  active : Bool
  running : Bool
  stack : List Frame
  steps : Int
  speedStepsPerTick : Int
  last : Action
  rng : Rng

/-- The method `Reset`. -/
def Solver.Reset (s : Solver) (rng : Rng) : Solver :=
  { s with active := false, running := false, stack := [], steps := 0,
           speedStepsPerTick := 1, last := ⟨ActionKind.ActionNone, -1, 0, 0, 0⟩, rng := rng }

/-- The common tail of `step`: build the candidate list, shuffle it, push the frame and
record the Choose action. -/
def pushChoose (s : Solver) (idx : Fin 81) (mask : Nat) : Solver :=
  { s with
    stack := s.stack ++ [Frame.mk idx (shuffle (maskToDigits mask) s.rng).1 0],
    rng := (shuffle (maskToDigits mask) s.rng).2,
    last := Action.mk ActionKind.ActionChoose (idx.val : Int) 0
      ((shuffle (maskToDigits mask) s.rng).1.length : Int)
      ((s.stack ++ [Frame.mk idx (shuffle (maskToDigits mask) s.rng).1 0]).length : Int) }

/-- The method `step` of solver.go, returning the solver and the grid it leaves behind. -/
def step (s : Solver) (grid : Grid) : Option (Solver × Grid) :=
  if s.last.Kind = ActionKind.ActionSolved ∨ s.last.Kind = ActionKind.ActionFailed then
    some (s, grid)
  else
    match s.stack.getLast? with
    | none =>
      match findBestEmpty grid with
      | none => none
      | some r =>
        if r.ok = false then
          some ({ s with last := ⟨ActionKind.ActionFailed, -1, 0, 0, 0⟩ }, grid)
        else
          match r.idx with
          | none => some ({ s with last := ⟨ActionKind.ActionSolved, -1, 0, 0, 0⟩ }, grid)
          | some idx => some (pushChoose s idx r.mask, grid)
    | some top =>
      if grid top.idx = 0 then
        if top.next ≥ top.candidates.length then
          match s.stack.dropLast.getLast? with
          | none =>
            some ({ s with stack := s.stack.dropLast,
                           last := ⟨ActionKind.ActionFailed, -1, 0, 0, 0⟩ }, grid)
          | some prev =>
            some ({ s with stack := s.stack.dropLast,
                           last := ⟨ActionKind.ActionBacktrack, (prev.idx.val : Int), 0, 0,
                             (s.stack.dropLast.length : Int)⟩ },
                  setCell grid prev.idx 0)
        else
          some ({ s with stack := s.stack.dropLast ++ [{ top with next := top.next + 1 }],
                         steps := s.steps + 1,
                         last := ⟨ActionKind.ActionTry, (top.idx.val : Int),
                           top.candidates.getD top.next 0, 0, (s.stack.length : Int)⟩ },
                setCell grid top.idx (top.candidates.getD top.next 0))
      else
        match findBestEmpty grid with
        | none => none
        | some r =>
          if r.ok = false then
            some ({ s with last := ⟨ActionKind.ActionBacktrack, (top.idx.val : Int), 0, 0,
                             (s.stack.length : Int)⟩ },
                  setCell grid top.idx 0)
          else
            match r.idx with
            | none => some ({ s with last := ⟨ActionKind.ActionSolved, -1, 0, 0, 0⟩ }, grid)
            | some idx => some (pushChoose s idx r.mask, grid)

/-- The state after `n` calls of `step`, each on the grid the previous one left. -/
def stepN : Nat → Solver → Grid → Option (Solver × Grid)
  | 0, s, g => some (s, g)
  | n + 1, s, g =>
    match stepN n s g with
    | none => none
    | some (s1, g1) => step s1 g1

/-! ## Specification vocabulary -/

/-- Every entry of the grid is `0` (empty) or a digit `1..9`. -/
def InRange (g : Grid) : Prop := ∀ i, 0 ≤ g i ∧ g i ≤ 9

/-- Cells `i` and `j` lie in the same row. -/
def sameRow (i j : Fin 81) : Prop := i.val / 9 = j.val / 9

/-- Cells `i` and `j` lie in the same column. -/
def sameCol (i j : Fin 81) : Prop := i.val % 9 = j.val % 9

/-- Cells `i` and `j` lie in the same 3x3 box. -/
def sameBox (i j : Fin 81) : Prop :=
  i.val / 27 = j.val / 27 ∧ (i.val % 9) / 3 = (j.val % 9) / 3

/-- Cell `j` is in the row, the column or the box of cell `i`. -/
def Peer (i j : Fin 81) : Prop := sameRow i j ∨ sameCol i j ∨ sameBox i j

instance (i j : Fin 81) : Decidable (Peer i j) := by
  unfold Peer sameRow sameCol sameBox; infer_instance

/-- Digit `d` occurs in the row, the column or the box of cell `i`. -/
def Occurs (g : Grid) (i : Fin 81) (d : Int) : Prop := ∃ j, Peer i j ∧ g j = d

instance (g : Grid) (i : Fin 81) (d : Int) : Decidable (Occurs g i d) := by
  unfold Occurs; infer_instance

instance (g : Grid) : Decidable (InRange g) := by
  unfold InRange; infer_instance

/-- Value `k` is read as a non-zero entry of cell `c`. -/
def Hit (g : Grid) (c : Fin 81) (k : Nat) : Prop := g c ≠ 0 ∧ g c = (k : Int)

/-- Grid given by the list of its entries in row-major order. -/
def gridOfList (l : List Int) : Grid := fun i => l.getD i.val 0

/-- A valid partial grid in which cell 0 has the single candidate 1 and cell 80 has none:
row 0 is `0 2 3 4 5 6 7 8 9`, row 8 is `2 1 4 3 6 5 8 7 0` (it holds 1..8, and column 8
holds the 9), and rows 1..7 are empty. -/
def deadGrid : Grid := fun i =>
  if i.val < 9 then [0, 2, 3, 4, 5, 6, 7, 8, 9].getD i.val 0
  else if 72 ≤ i.val then [2, 1, 4, 3, 6, 5, 8, 7, 0].getD (i.val - 72) 0
  else 0

/-- Mask of cell `i` as `candidatesMask` computes it (0 if the call panics). -/
def maskOf (g : Grid) (i : Fin 81) : Nat := (candidatesMask g i).getD 0

/-- Number of candidates of cell `i`: the popcount `findBestEmpty` computes for it. -/
def candCount (g : Grid) (i : Fin 81) : Nat := onesCount16 (maskOf g i)

/-- What `findBestEmpty` returns, case by case. -/
def FoundSpec (g : Grid) (r : Found) : Prop :=
  (r.ok = false → r.idx = none ∧ r.mask = 0 ∧
    ∃ i, g i = 0 ∧ candCount g i = 0 ∧ ∀ j, j < i → g j = 0 → 2 ≤ candCount g j) ∧
  (r.ok = true → r.idx = none → r.mask = 0 ∧ ∀ i, g i ≠ 0) ∧
  (r.ok = true → ∀ i, r.idx = some i →
    g i = 0 ∧ r.mask = maskOf g i ∧ 1 ≤ candCount g i ∧
    (∀ j, j < i → g j = 0 → candCount g i < candCount g j) ∧
    (candCount g i = 1 ∨ ∀ j, g j = 0 → candCount g i ≤ candCount g j))

/-- Invariant of the loop of `findBestEmpty` once the cells of `pre` are visited. -/
def LoopInv (g : Grid) (pre : List (Fin 81)) (bestIdx : Option (Fin 81))
    (bestMask bestCount : Nat) : Prop :=
  (∀ j ∈ pre, g j = 0 → 2 ≤ candCount g j) ∧
  (bestIdx = none → bestCount = 10 ∧ ∀ j ∈ pre, g j ≠ 0) ∧
  (∀ b, bestIdx = some b → b ∈ pre ∧ g b = 0 ∧ bestMask = maskOf g b ∧
    bestCount = candCount g b ∧
    (∀ j ∈ pre, g j = 0 → bestCount ≤ candCount g j) ∧
    (∀ j ∈ pre, j < b → g j = 0 → bestCount < candCount g j))

/-- The grid `deadGrid` with cell 0 filled in: its first dead cell is cell 80 and no
cell before it has a single candidate. -/
def deadGrid1 : Grid := setCell deadGrid 0 1

/-- The Grid invariant: non-zero values are pairwise distinct in every row, column, box. -/
def ValidGrid (g : Grid) : Prop := ∀ i j, i ≠ j → Peer i j → g i ≠ 0 → g i ≠ g j

instance (g : Grid) : Decidable (ValidGrid g) := by
  unfold ValidGrid; infer_instance

/-- Grid `h` is a valid completion of `g`: every cell of `h` holds a digit 1..9, `h` keeps
the non-zero cells of `g`, and `h` satisfies the Grid invariant. -/
def Completion (g h : Grid) : Prop :=
  (∀ i, 1 ≤ h i ∧ h i ≤ 9) ∧ (∀ i, g i ≠ 0 → h i = g i) ∧ ValidGrid h

instance (g h : Grid) : Decidable (Completion g h) := by
  unfold Completion; infer_instance

/-- Number of empty cells. -/
def emptyCount (g : Grid) : Nat := (Finset.univ.filter (fun i => g i = 0)).card

/-- Number of clues: the non-zero cells. -/
def clueCount (g : Grid) : Nat := (Finset.univ.filter (fun i => g i ≠ 0)).card

/-- A solver that has not run, with the random source `rng`. -/
def freshSolver (rng : Rng) : Solver :=
  Solver.Reset ⟨false, false, [], 0, 0, ⟨ActionKind.ActionNone, 0, 0, 0, 0⟩, rng⟩ rng

/-- The random source whose draws are all zero. -/
def zeroRng : Rng := ⟨fun _ => 0, 0⟩

/-- A completed valid grid (rows are shifts of 1..9 by 0,3,6,1,4,7,2,5,8). -/
def solvedGrid : Grid := gridOfList
  [1, 2, 3, 4, 5, 6, 7, 8, 9,
   4, 5, 6, 7, 8, 9, 1, 2, 3,
   7, 8, 9, 1, 2, 3, 4, 5, 6,
   2, 3, 4, 5, 6, 7, 8, 9, 1,
   5, 6, 7, 8, 9, 1, 2, 3, 4,
   8, 9, 1, 2, 3, 4, 5, 6, 7,
   3, 4, 5, 6, 7, 8, 9, 1, 2,
   6, 7, 8, 9, 1, 2, 3, 4, 5,
   9, 1, 2, 3, 4, 5, 6, 7, 8]

/-- The grid whose cells hold the values of `h`. -/
def toGrid (h : Fin 81 → Fin 10) : Grid := fun i => ((h i).val : Int)

/-- The valid completions of `g`, as fillings of the 81 cells with values below 10. -/
@[irreducible] def completions (g : Grid) : Finset (Fin 81 → Fin 10) :=
  Finset.univ.filter (fun h => Completion g (toGrid h))

/-- The number `K` of distinct valid completions of `g`. -/
def solutionCount (g : Grid) : Nat := (completions g).card

/-- The set of values in row `r`. -/
def rowSet (g : Grid) (r : Fin 9) : Finset Int :=
  Finset.univ.image (fun c : Fin 9 => g (rowCell r c))

/-- The set of values in column `c`. -/
def colSet (g : Grid) (c : Fin 9) : Finset Int :=
  Finset.univ.image (fun r : Fin 9 => g (colCell c r))

/-- Cell `(dr, dc)` of the box in box-row `br` and box-column `bc`. -/
def boxCellOf (br bc : Fin 3) (p : Fin 3 × Fin 3) : Fin 81 :=
  ⟨(br.val * 3 + p.1.val) * 9 + (bc.val * 3 + p.2.val), by omega⟩

/-- The set of values in the box in box-row `br` and box-column `bc`. -/
def boxSet (g : Grid) (br bc : Fin 3) : Finset Int :=
  Finset.univ.image (fun p : Fin 3 × Fin 3 => g (boxCellOf br bc p))

/-- The set {1..9}. -/
def digitSet : Finset Int := Finset.Icc 1 9

/-- The call `fillRandom(&full, g.rng)` of `newPuzzle`, on the all-zero array. -/
def generateFull (rng : Rng) : Option (Bool × Grid × Rng) := fillRandom 82 emptyGrid rng

/-- What a call of `fillRandom` on grid `g` leaves: on `false` the grid is restored and `g`
has no valid completion; on `true` the grid left is a valid completion of `g`. -/
def FillPost (g : Grid) (b : Bool) (g2 : Grid) : Prop :=
  (b = false → g2 = g ∧ ¬ ∃ h, Completion g h) ∧ (b = true → Completion g g2)

/-- What the counter may return on a grid with `K` completions: `K` itself when `K` is
below the limit, and otherwise a number between the limit and `K`. -/
def CountPost (limit r : Int) (K : Nat) : Prop :=
  ((K : Int) < limit → r = K) ∧ (limit ≤ (K : Int) → limit ≤ r ∧ r ≤ K)

/-- The number of completions reached through the digits `ds` that are in `mask`. -/
def branchSum (g : Grid) (idx : Fin 81) (mask : Nat) (ds : List Nat) : Int :=
  (ds.map (fun d => if mask.testBit d = true
    then (solutionCount (setCell g idx (d : Int)) : Int) else 0)).sum

/-! ## Invariant of the stepwise solver -/

/-- Grid `g` has no valid completion. -/
abbrev NoCompletion (g : Grid) : Prop := ¬ ∃ h, Completion g h

/-- Frame `f` was created for the empty cell `f.idx` of the grid `G`: its candidates are
exactly the digits legal for that cell in `G`, and its cursor is inside the list. -/
def FrameOK (G : Grid) (f : Frame) : Prop :=
  G f.idx = 0 ∧ InRange G ∧
  (∀ d, d ∈ f.candidates ↔ (1 ≤ d ∧ d ≤ 9 ∧ ¬ Occurs G f.idx d)) ∧
  f.next ≤ f.candidates.length

/-- The candidate a frame has tried last: the one before its cursor. -/
def Frame.current (f : Frame) : Int := f.candidates.getD (f.next - 1) 0

/-- The candidates of `f` before position `k` lead to no completion of `G`. -/
def TriedOut (G : Grid) (f : Frame) (k : Nat) : Prop :=
  ∀ m, m < k → NoCompletion (setCell G f.idx (f.candidates.getD m 0))

/-- The frames below the top: each holds its current candidate in the grid, the earlier
candidates are tried out, and the grid each frame was created on is the grid below it
with the lower frames' values written. The last argument is the grid above the path. -/
inductive PathInv (g0 : Grid) : List Frame → Grid → Prop
  | nil : PathInv g0 [] g0
  | snoc (init : List Frame) (G : Grid) (f : Frame) :
      PathInv g0 init G → FrameOK G f → 1 ≤ f.next → TriedOut G f (f.next - 1) →
      PathInv g0 (init ++ [f]) (setCell G f.idx f.current)

/-- The top frame, created on `G`: either its cell is empty and every candidate before the
cursor is tried out, or its cell holds the current candidate. -/
def TopState (G : Grid) (f : Frame) (grid : Grid) : Prop :=
  (grid = G ∧ TriedOut G f f.next) ∨
  (grid = setCell G f.idx f.current ∧ 1 ≤ f.next ∧ TriedOut G f (f.next - 1))

/-- Invariant of a running search started on `g0`. -/
def SearchInv (g0 : Grid) (stack : List Frame) (grid : Grid) : Prop :=
  (stack = [] ∧ grid = g0) ∨
  ∃ init top G, stack = init ++ [top] ∧ PathInv g0 init G ∧ FrameOK G top ∧ TopState G top grid

/-- Invariant of the solver state reached by `step` calls from a reset on `g0`. -/
def StateInv (g0 : Grid) (s : Solver) (grid : Grid) : Prop :=
  (s.last.Kind = ActionKind.ActionFailed → NoCompletion g0 ∧ s.stack = [] ∧ grid = g0) ∧
  (¬ (s.last.Kind = ActionKind.ActionSolved ∨ s.last.Kind = ActionKind.ActionFailed) →
    SearchInv g0 s.stack grid)

/-! ## Case analysis of step -/

/-- The last action of the solver is Solved or Failed. -/
def Solver.terminal (s : Solver) : Prop :=
  s.last.Kind = ActionKind.ActionSolved ∨ s.last.Kind = ActionKind.ActionFailed

instance (s : Solver) : Decidable s.terminal := by
  unfold Solver.terminal; infer_instance

/-- The ten ways in which a call `step` on solver `s` and grid `grid` can return, each with
the solver and the grid it leaves. -/
inductive StepCase (s : Solver) (grid : Grid) : Solver → Grid → Prop
  | terminal : s.terminal → StepCase s grid s grid
  | firstFailed (r : Found) : ¬ s.terminal → s.stack = [] → findBestEmpty grid = some r →
      r.ok = false →
      StepCase s grid { s with last := ⟨ActionKind.ActionFailed, -1, 0, 0, 0⟩ } grid
  | firstSolved (r : Found) : ¬ s.terminal → s.stack = [] → findBestEmpty grid = some r →
      r.ok = true → r.idx = none →
      StepCase s grid { s with last := ⟨ActionKind.ActionSolved, -1, 0, 0, 0⟩ } grid
  | firstChoose (r : Found) (i : Fin 81) : ¬ s.terminal → s.stack = [] →
      findBestEmpty grid = some r → r.ok = true → r.idx = some i →
      StepCase s grid (pushChoose s i r.mask) grid
  | popFailed (top : Frame) : ¬ s.terminal → s.stack = [top] → grid top.idx = 0 →
      top.next ≥ top.candidates.length →
      StepCase s grid { s with stack := [], last := ⟨ActionKind.ActionFailed, -1, 0, 0, 0⟩ } grid
  | popBacktrack (init : List Frame) (prev top : Frame) : ¬ s.terminal →
      s.stack = init ++ [prev] ++ [top] → grid top.idx = 0 →
      top.next ≥ top.candidates.length →
      StepCase s grid
        { s with stack := init ++ [prev],
                 last := ⟨ActionKind.ActionBacktrack, (prev.idx.val : Int), 0, 0,
                   ((init ++ [prev]).length : Int)⟩ }
        (setCell grid prev.idx 0)
  | tryNext (init : List Frame) (top : Frame) : ¬ s.terminal → s.stack = init ++ [top] →
      grid top.idx = 0 → top.next < top.candidates.length →
      StepCase s grid
        { s with stack := init ++ [{ top with next := top.next + 1 }],
                 steps := s.steps + 1,
                 last := ⟨ActionKind.ActionTry, (top.idx.val : Int),
                   top.candidates.getD top.next 0, 0, (s.stack.length : Int)⟩ }
        (setCell grid top.idx (top.candidates.getD top.next 0))
  | localBacktrack (init : List Frame) (top : Frame) (r : Found) : ¬ s.terminal →
      s.stack = init ++ [top] → grid top.idx ≠ 0 → findBestEmpty grid = some r →
      r.ok = false →
      StepCase s grid
        { s with last := ⟨ActionKind.ActionBacktrack, (top.idx.val : Int), 0, 0,
                   (s.stack.length : Int)⟩ }
        (setCell grid top.idx 0)
  | deepSolved (init : List Frame) (top : Frame) (r : Found) : ¬ s.terminal →
      s.stack = init ++ [top] → grid top.idx ≠ 0 → findBestEmpty grid = some r →
      r.ok = true → r.idx = none →
      StepCase s grid { s with last := ⟨ActionKind.ActionSolved, -1, 0, 0, 0⟩ } grid
  | deepChoose (init : List Frame) (top : Frame) (r : Found) (i : Fin 81) : ¬ s.terminal →
      s.stack = init ++ [top] → grid top.idx ≠ 0 → findBestEmpty grid = some r →
      r.ok = true → r.idx = some i →
      StepCase s grid (pushChoose s i r.mask) grid

/-! ## Invariants of the grid under step -/

/-- Grid `g` keeps every non-zero cell of `g0`. -/
def Extends (g0 g : Grid) : Prop := ∀ i, g0 i ≠ 0 → g i = g0 i

/-- Frame invariant of a run started on `g0`: the grid keeps the non-zero cells of `g0`,
and every frame on the stack is for a cell that is empty in `g0`. -/
def FrameInv (g0 : Grid) (s : Solver) (grid : Grid) : Prop :=
  Extends g0 grid ∧ ∀ f ∈ s.stack, g0 f.idx = 0

/-- Grid invariant of a run: entries in 0..9, the Grid invariant, and no empty cell once
the last action is Solved. -/
def GridInv (s : Solver) (grid : Grid) : Prop :=
  InRange grid ∧ ValidGrid grid ∧ (s.last.Kind = ActionKind.ActionSolved → ∀ i, grid i ≠ 0)

/-! ## Termination of the search -/

/-- From solver `s` on grid `G`, finitely many calls of `step` lead either to a terminal
action or back to the stack of `s` with the cell of its top frame cleared: the part of the
search below the current state comes to an end. -/
def Finishes (s : Solver) (G : Grid) : Prop :=
  ∃ n s2 g2, stepN n s G = some (s2, g2) ∧
    (s2.terminal ∨
      ∃ init top, s.stack = init ++ [top] ∧ s2.stack = s.stack ∧ ¬ s2.terminal ∧
        g2 = setCell G top.idx 0)

/-! ## Sample completions -/

/-- The filling of the 81 cells with the values of grid `h`, reduced below 10. -/
def ofGrid (h : Grid) : Fin 81 → Fin 10 := fun i => ⟨(h i).toNat % 10, Nat.mod_lt _ (by decide)⟩

/-- A second completed valid grid: `solvedGrid` with every digit replaced by its successor
(and 9 by 1). -/
def solvedGrid2 : Grid := fun i => solvedGrid i % 9 + 1

/-- The grid whose only clue is a 1 in cell 0. -/
def oneClueGrid : Grid := setCell emptyGrid 0 1

/-- The grid `solvedGrid` with cell 0 emptied: one empty cell, with the single candidate 1. -/
def oneLeftGrid : Grid := setCell solvedGrid 0 0

/-! # Proofs -/

/-! ## Lemmas on candidatesMask -/

theorem allMask_eq : allMask = 1022 := by decide

theorem testBit_allMask (k : Nat) : allMask.testBit k = true ↔ 1 ≤ k ∧ k ≤ 9 := by
  rw [allMask_eq]
  by_cases hk : k < 16
  · interval_cases k <;> simp [Nat.testBit, Nat.shiftRight_eq_div_pow]
  · have h1 : (1022 : Nat) < 2 ^ k :=
      lt_of_lt_of_le (by norm_num) (Nat.pow_le_pow_right (by norm_num) (Nat.le_of_not_lt hk))
    rw [Nat.testBit_lt_two_pow h1]
    simp
    omega

theorem testBit_shiftMask (v k : Nat) :
    ((1 <<< v) % 65536).testBit k = true ↔ v = k ∧ k < 16 := by
  have h : (65536 : Nat) = 2 ^ 16 := by norm_num
  rw [h, Nat.testBit_mod_two_pow, Nat.one_shiftLeft, Nat.testBit_two_pow]
  simp
  tauto

theorem markCell_spec (g : Grid) (hr : InRange g) (u : Nat) (c : Fin 81) :
    ∃ u2, markCell g u c = some u2 ∧
      ∀ k : Nat, u2.testBit k = true ↔ (u.testBit k = true ∨ (g c ≠ 0 ∧ g c = (k : Int))) := by
  unfold markCell
  by_cases h0 : g c = 0
  · exact ⟨u, by simp [h0], fun k => by simp [h0]⟩
  · have h1 := hr c
    have hneg : ¬ g c < 0 := by omega
    refine ⟨u ||| ((1 <<< (g c).toNat) % 65536), by simp [h0, orShift, hneg], fun k => ?_⟩
    rw [Nat.testBit_or, Bool.or_eq_true, testBit_shiftMask]
    constructor
    · rintro (h | ⟨h, _⟩)
      · exact Or.inl h
      · exact Or.inr ⟨h0, by omega⟩
    · rintro (h | ⟨_, h⟩)
      · exact Or.inl h
      · exact Or.inr ⟨by omega, by omega⟩

theorem foldlM_testBit {α : Type} (f : Nat → α → Option Nat) (P : α → Nat → Prop)
    (hf : ∀ u a, ∃ u2, f u a = some u2 ∧
      ∀ k : Nat, u2.testBit k = true ↔ (u.testBit k = true ∨ P a k))
    (l : List α) (u : Nat) :
    ∃ u2, l.foldlM f u = some u2 ∧
      ∀ k : Nat, u2.testBit k = true ↔ (u.testBit k = true ∨ ∃ a ∈ l, P a k) := by
  induction l generalizing u with
  | nil => exact ⟨u, rfl, fun k => by simp⟩
  | cons a l ih =>
    obtain ⟨u1, h1, h1k⟩ := hf u a
    obtain ⟨u2, h2, h2k⟩ := ih u1
    refine ⟨u2, by simp [List.foldlM_cons, h1, h2], fun k => ?_⟩
    rw [h2k, h1k]
    simp only [List.mem_cons, exists_eq_or_imp]
    tauto

theorem rowColStep_spec (g : Grid) (hr : InRange g) (row col : Fin 9) (u : Nat) (i : Fin 9) :
    ∃ u2, rowColStep g row col u i = some u2 ∧
      ∀ k : Nat, u2.testBit k = true ↔
        (u.testBit k = true ∨ (Hit g (rowCell row i) k ∨ Hit g (colCell col i) k)) := by
  obtain ⟨u1, h1, h1k⟩ := markCell_spec g hr u (rowCell row i)
  obtain ⟨u2, h2, h2k⟩ := markCell_spec g hr u1 (colCell col i)
  refine ⟨u2, by simp [rowColStep, h1, h2], fun k => ?_⟩
  rw [h2k, h1k]
  unfold Hit
  tauto

theorem boxRowStep_spec (g : Grid) (hr : InRange g) (row col : Fin 9) (u : Nat) (dr : Fin 3) :
    ∃ u2, boxRowStep g row col u dr = some u2 ∧
      ∀ k : Nat, u2.testBit k = true ↔
        (u.testBit k = true ∨ ∃ dc : Fin 3, Hit g (boxCell row col dr dc) k) := by
  obtain ⟨u2, h2, h2k⟩ := foldlM_testBit (fun u dc => markCell g u (boxCell row col dr dc))
    (fun dc k => Hit g (boxCell row col dr dc) k)
    (fun u dc => markCell_spec g hr u (boxCell row col dr dc)) (List.finRange 3) u
  refine ⟨u2, h2, fun k => ?_⟩
  rw [h2k]
  simp [List.mem_finRange]

theorem peer_iff_scanned (idx j : Fin 81) :
    Peer idx j ↔
      ((∃ i : Fin 9, j = rowCell ⟨idx.val / 9, by omega⟩ i ∨ j = colCell ⟨idx.val % 9, by omega⟩ i)
        ∨ ∃ dr dc : Fin 3, j = boxCell ⟨idx.val / 9, by omega⟩ ⟨idx.val % 9, by omega⟩ dr dc) := by
  unfold Peer sameRow sameCol sameBox
  simp only [rowCell, colCell, boxCell, Fin.ext_iff]
  constructor
  · rintro (h | h | h)
    · exact Or.inl ⟨⟨j.val % 9, by omega⟩, Or.inl (by simp only []; omega)⟩
    · exact Or.inl ⟨⟨j.val / 9, by omega⟩, Or.inr (by simp only []; omega)⟩
    · exact Or.inr ⟨⟨j.val / 9 % 3, by omega⟩, ⟨j.val % 9 % 3, by omega⟩, by simp only []; omega⟩
  · rintro (⟨i, h | h⟩ | ⟨dr, dc, h⟩)
    · left; have := i.isLt; omega
    · right; left; have := i.isLt; omega
    · right; right; have := dr.isLt; have := dc.isLt; omega

/-- The scan of `candidatesMask` on an empty cell: the mask `used` it accumulates. -/
theorem candidatesMask_used (g : Grid) (hr : InRange g) (idx : Fin 81) (he : g idx = 0) :
    ∃ used, candidatesMask g idx = some (allMask &&& (used ^^^ 65535)) ∧
      ∀ k : Nat, used.testBit k = true ↔ ∃ j, Peer idx j ∧ Hit g j k := by
  obtain ⟨u1, h1, h1k⟩ := foldlM_testBit
    (rowColStep g ⟨idx.val / 9, by omega⟩ ⟨idx.val % 9, by omega⟩)
    (fun i k => Hit g (rowCell ⟨idx.val / 9, by omega⟩ i) k ∨
      Hit g (colCell ⟨idx.val % 9, by omega⟩ i) k)
    (rowColStep_spec g hr _ _) (List.finRange 9) 0
  obtain ⟨u2, h2, h2k⟩ := foldlM_testBit
    (boxRowStep g ⟨idx.val / 9, by omega⟩ ⟨idx.val % 9, by omega⟩)
    (fun dr k => ∃ dc : Fin 3,
      Hit g (boxCell ⟨idx.val / 9, by omega⟩ ⟨idx.val % 9, by omega⟩ dr dc) k)
    (boxRowStep_spec g hr _ _) (List.finRange 3) u1
  refine ⟨u2, by simp [candidatesMask, he, h1, h2], fun k => ?_⟩
  rw [h2k, h1k]
  simp only [Nat.zero_testBit, Bool.false_eq_true, false_or, List.mem_finRange, true_and]
  constructor
  · rintro (⟨i, h | h⟩ | ⟨dr, dc, h⟩)
    · exact ⟨_, (peer_iff_scanned idx _).2 (Or.inl ⟨i, Or.inl rfl⟩), h⟩
    · exact ⟨_, (peer_iff_scanned idx _).2 (Or.inl ⟨i, Or.inr rfl⟩), h⟩
    · exact ⟨_, (peer_iff_scanned idx _).2 (Or.inr ⟨dr, dc, rfl⟩), h⟩
  · rintro ⟨j, hp, hh⟩
    rcases (peer_iff_scanned idx j).1 hp with ⟨i, h | h⟩ | ⟨dr, dc, h⟩
    · subst h; exact Or.inl ⟨i, Or.inl hh⟩
    · subst h; exact Or.inl ⟨i, Or.inr hh⟩
    · subst h; exact Or.inr ⟨dr, dc, hh⟩

/-- Bits of the mask of an empty cell. -/
theorem candidatesMask_bits (g : Grid) (hr : InRange g) (idx : Fin 81) (he : g idx = 0) :
    ∃ m, candidatesMask g idx = some m ∧
      ∀ d : Nat, m.testBit d = true ↔ (1 ≤ d ∧ d ≤ 9 ∧ ¬ Occurs g idx (d : Int)) := by
  obtain ⟨used, h, hk⟩ := candidatesMask_used g hr idx he
  refine ⟨_, h, fun d => ?_⟩
  have h16 : (65535 : Nat) = 2 ^ 16 - 1 := by norm_num
  rw [Nat.testBit_and, Bool.and_eq_true, testBit_allMask, Nat.testBit_xor, h16,
    Nat.testBit_two_pow_sub_one]
  have hu := hk d
  unfold Occurs
  unfold Hit at hu
  constructor
  · rintro ⟨⟨h1, h2⟩, h3⟩
    refine ⟨h1, h2, ?_⟩
    rintro ⟨j, hp, hj⟩
    have h4 : used.testBit d = true := hu.2 ⟨j, hp, by omega, hj⟩
    have h5 : decide (d < 16) = true := by simp; omega
    rw [h4, h5] at h3
    simp at h3
  · rintro ⟨h1, h2, h3⟩
    refine ⟨⟨h1, h2⟩, ?_⟩
    have h4 : used.testBit d = false := by
      rw [← Bool.not_eq_true]
      intro h
      obtain ⟨j, hp, _, hj⟩ := hu.1 h
      exact h3 ⟨j, hp, hj⟩
    have h5 : decide (d < 16) = true := by simp; omega
    rw [h4, h5]
    rfl


theorem candidatesMask_filled (g : Grid) (idx : Fin 81) (h : g idx ≠ 0) :
    candidatesMask g idx = some 0 := by
  simp [candidatesMask, h]

theorem candidatesMask_total (g : Grid) (hr : InRange g) (idx : Fin 81) :
    ∃ m, candidatesMask g idx = some m := by
  by_cases h : g idx = 0
  · obtain ⟨m, hm, _⟩ := candidatesMask_bits g hr idx h
    exact ⟨m, hm⟩
  · exact ⟨0, candidatesMask_filled g idx h⟩

theorem maskOf_bits (g : Grid) (hr : InRange g) (idx : Fin 81) (he : g idx = 0) :
    candidatesMask g idx = some (maskOf g idx) ∧
      ∀ d : Nat, (maskOf g idx).testBit d = true ↔ (1 ≤ d ∧ d ≤ 9 ∧ ¬ Occurs g idx (d : Int)) := by
  obtain ⟨m, hm, hb⟩ := candidatesMask_bits g hr idx he
  have : maskOf g idx = m := by simp [maskOf, hm]
  rw [this]
  exact ⟨hm, hb⟩

theorem onesCount16_le_nine (m : Nat) (h : ∀ d : Nat, m.testBit d = true → 1 ≤ d ∧ d ≤ 9) :
    onesCount16 m ≤ 9 := by
  unfold onesCount16
  have hsub : List.Sublist ((List.range 16).filter (fun k => m.testBit k))
      ((List.range 16).filter (fun k => decide (1 ≤ k ∧ k ≤ 9))) := by
    apply List.monotone_filter_right
    intro k hk
    have := h k hk
    simpa using this
  have hlen := hsub.length_le
  have h9 : ((List.range 16).filter (fun k => decide (1 ≤ k ∧ k ≤ 9))).length = 9 := by decide
  omega

theorem onesCount16_eq_zero (m : Nat) (h : ∀ d : Nat, m.testBit d = true → d < 16) :
    onesCount16 m = 0 ↔ m = 0 := by
  unfold onesCount16
  constructor
  · intro h0
    apply Nat.zero_of_testBit_eq_false
    intro i
    rw [← Bool.not_eq_true]
    intro hi
    have hmem : i ∈ (List.range 16).filter (fun k => m.testBit k) := by
      simp [List.mem_filter, hi, h i hi]
    rw [List.length_eq_zero] at h0
    rw [h0] at hmem
    simp at hmem
  · intro h0
    subst h0
    simp

theorem candCount_le_nine (g : Grid) (hr : InRange g) (i : Fin 81) (he : g i = 0) :
    candCount g i ≤ 9 :=
  onesCount16_le_nine _ (fun d hd => by
    have := ((maskOf_bits g hr i he).2 d).1 hd
    omega)

theorem candCount_eq_zero (g : Grid) (hr : InRange g) (i : Fin 81) (he : g i = 0) :
    candCount g i = 0 ↔ maskOf g i = 0 :=
  onesCount16_eq_zero _ (fun d hd => by
    have := ((maskOf_bits g hr i he).2 d).1 hd
    omega)

theorem split_finRange (pre rest : List (Fin 81)) (i : Fin 81)
    (h : pre ++ i :: rest = List.finRange 81) :
    (∀ j ∈ pre, j < i) ∧ (∀ j, j < i → j ∈ pre) := by
  have hs : List.Pairwise (· < ·) (pre ++ i :: rest) := h ▸ List.pairwise_lt_finRange 81
  rw [List.pairwise_append] at hs
  obtain ⟨_, h2, h3⟩ := hs
  rw [List.pairwise_cons] at h2
  refine ⟨fun j hj => h3 j hj i (List.mem_cons_self _ _), fun j hj => ?_⟩
  have hmem : j ∈ pre ++ i :: rest := h ▸ List.mem_finRange j
  rcases List.mem_append.1 hmem with h4 | h4
  · exact h4
  · rcases List.mem_cons.1 h4 with h5 | h5
    · subst h5; exact absurd hj (lt_irrefl _)
    · exact absurd (h2.1 j h5) (not_lt_of_gt hj)

theorem findLoop_spec (g : Grid) (hr : InRange g) :
    ∀ (l pre : List (Fin 81)) (bestIdx : Option (Fin 81)) (bestMask bestCount : Nat),
      pre ++ l = List.finRange 81 → LoopInv g pre bestIdx bestMask bestCount →
      ∃ r, findLoop g l bestIdx bestMask bestCount = some r ∧ FoundSpec g r := by
  intro l
  induction l with
  | nil =>
    intro pre bestIdx bestMask bestCount hpre hinv
    have hall : ∀ j : Fin 81, j ∈ pre := by
      intro j
      have : pre = List.finRange 81 := by simpa using hpre
      rw [this]; exact List.mem_finRange j
    obtain ⟨h2, hn, hs⟩ := hinv
    cases bestIdx with
    | none =>
      refine ⟨⟨none, 0, true⟩, rfl, ?_⟩
      refine ⟨by simp, fun _ _ => ⟨rfl, fun i => (hn rfl).2 i (hall i)⟩, by simp⟩
    | some b =>
      obtain ⟨_, hb0, hbm, hbc, hmin, hfirst⟩ := hs b rfl
      refine ⟨⟨some b, bestMask, true⟩, rfl, ?_⟩
      refine ⟨by simp, by simp, ?_⟩
      intro _ i hi
      have hib : b = i := by simpa using hi
      subst hib
      have hb2 := h2 b (hall b) hb0
      refine ⟨hb0, hbm, by omega, fun j hj hj0 => ?_, Or.inr fun j hj0 => ?_⟩
      · have := hfirst j (hall j) hj hj0; omega
      · have := hmin j (hall j) hj0; omega
  | cons i rest ih =>
    intro pre bestIdx bestMask bestCount hpre hinv
    have hpre2 : (pre ++ [i]) ++ rest = List.finRange 81 := by simpa using hpre
    obtain ⟨hlt, hmem⟩ := split_finRange pre rest i hpre
    obtain ⟨h2, hn, hs⟩ := hinv
    by_cases hi0 : g i = 0
    · obtain ⟨hm, _⟩ := maskOf_bits g hr i hi0
      have hc9 := candCount_le_nine g hr i hi0
      have hcdef : onesCount16 (maskOf g i) = candCount g i := rfl
      by_cases hc0 : candCount g i = 0
      · refine ⟨⟨none, 0, false⟩, by simp [findLoop, hi0, hm, hcdef, hc0], ?_⟩
        refine ⟨fun _ => ⟨rfl, rfl, i, hi0, hc0, fun j hj hj0 => h2 j (hmem j hj) hj0⟩,
          by simp, by simp⟩
      · by_cases hlt2 : candCount g i < bestCount
        · by_cases hc1 : candCount g i = 1
          · have hlt3 : 1 < bestCount := by omega
            refine ⟨⟨some i, maskOf g i, true⟩,
              by simp [findLoop, hi0, hm, hcdef, hc1, hlt3, findFinish], ?_⟩
            refine ⟨by simp, by simp, ?_⟩
            intro _ k hk
            have hik : i = k := by simpa using hk
            subst hik
            refine ⟨hi0, rfl, by omega, fun j hj hj0 => ?_, Or.inl hc1⟩
            have := h2 j (hmem j hj) hj0; omega
          · have hinv2 : LoopInv g (pre ++ [i]) (some i) (maskOf g i) (candCount g i) := by
              refine ⟨?_, by simp, ?_⟩
              · intro j hj hj0
                rcases List.mem_append.1 hj with h | h
                · exact h2 j h hj0
                · have : j = i := by simpa using h
                  subst this; omega
              · intro b hb
                have hib : i = b := by simpa using hb
                subst hib
                have hprev : ∀ j ∈ pre, g j = 0 → candCount g i < candCount g j := by
                  intro j hj hj0
                  cases bestIdx with
                  | none => exact absurd hj0 ((hn rfl).2 j hj)
                  | some b =>
                    obtain ⟨_, _, _, _, hmin, _⟩ := hs b rfl
                    have := hmin j hj hj0; omega
                refine ⟨by simp, hi0, rfl, rfl, ?_, ?_⟩
                · intro j hj hj0
                  rcases List.mem_append.1 hj with h | h
                  · exact le_of_lt (hprev j h hj0)
                  · have : j = i := by simpa using h
                    subst this; exact le_refl _
                · intro j hj hji hj0
                  rcases List.mem_append.1 hj with h | h
                  · exact hprev j h hj0
                  · have : j = i := by simpa using h
                    subst this; exact absurd hji (lt_irrefl _)
            obtain ⟨r, hr1, hr2⟩ := ih (pre ++ [i]) (some i) (maskOf g i) (candCount g i) hpre2 hinv2
            exact ⟨r, by simp [findLoop, hi0, hm, hcdef, hc0, hlt2, hc1, hr1], hr2⟩
        · cases bestIdx with
          | none => have := (hn rfl).1; omega
          | some b =>
            obtain ⟨hbp, hb0, hbm, hbc, hmin, hfirst⟩ := hs b rfl
            have hb2 := h2 b hbp hb0
            have hinv2 : LoopInv g (pre ++ [i]) (some b) bestMask bestCount := by
              refine ⟨?_, by simp, ?_⟩
              · intro j hj hj0
                rcases List.mem_append.1 hj with h | h
                · exact h2 j h hj0
                · have : j = i := by simpa using h
                  subst this; omega
              · intro b2 hb
                have hib : b = b2 := by simpa using hb
                subst hib
                refine ⟨by simp [hbp], hb0, hbm, hbc, ?_, ?_⟩
                · intro j hj hj0
                  rcases List.mem_append.1 hj with h | h
                  · exact hmin j h hj0
                  · have : j = i := by simpa using h
                    subst this; omega
                · intro j hj hjb hj0
                  rcases List.mem_append.1 hj with h | h
                  · exact hfirst j h hjb hj0
                  · have : j = i := by simpa using h
                    subst this
                    exact absurd (hlt b hbp) (not_lt_of_gt hjb)
            obtain ⟨r, hr1, hr2⟩ := ih (pre ++ [i]) (some b) bestMask bestCount hpre2 hinv2
            exact ⟨r, by simp [findLoop, hi0, hm, hcdef, hc0, hlt2, hr1], hr2⟩
    · have hinv2 : LoopInv g (pre ++ [i]) bestIdx bestMask bestCount := by
        refine ⟨?_, ?_, ?_⟩
        · intro j hj hj0
          rcases List.mem_append.1 hj with h | h
          · exact h2 j h hj0
          · have : j = i := by simpa using h
            subst this; exact absurd hj0 hi0
        · intro hb
          refine ⟨(hn hb).1, fun j hj => ?_⟩
          rcases List.mem_append.1 hj with h | h
          · exact (hn hb).2 j h
          · have : j = i := by simpa using h
            subst this; exact hi0
        · intro b hb
          obtain ⟨hbp, hb0, hbm, hbc, hmin, hfirst⟩ := hs b hb
          refine ⟨by simp [hbp], hb0, hbm, hbc, ?_, ?_⟩
          · intro j hj hj0
            rcases List.mem_append.1 hj with h | h
            · exact hmin j h hj0
            · have : j = i := by simpa using h
              subst this; exact absurd hj0 hi0
          · intro j hj hjb hj0
            rcases List.mem_append.1 hj with h | h
            · exact hfirst j h hjb hj0
            · have : j = i := by simpa using h
              subst this; exact absurd hj0 hi0
      obtain ⟨r, hr1, hr2⟩ := ih (pre ++ [i]) bestIdx bestMask bestCount hpre2 hinv2
      exact ⟨r, by simp [findLoop, hi0, hr1], hr2⟩

theorem findBestEmpty_spec (g : Grid) (hr : InRange g) :
    ∃ r, findBestEmpty g = some r ∧ FoundSpec g r :=
  findLoop_spec g hr (List.finRange 81) [] none 0 10 rfl
    ⟨by simp, by simp, by simp⟩

/-! ## Lemmas on setCell and the counters -/

theorem setCell_same (g : Grid) (i : Fin 81) (v : Int) : setCell g i v i = v := by
  simp [setCell]

theorem setCell_other (g : Grid) (i j : Fin 81) (v : Int) (h : j ≠ i) :
    setCell g i v j = g j := by
  simp [setCell, Function.update_noteq h]

theorem setCell_setCell (g : Grid) (i : Fin 81) (v w : Int) :
    setCell (setCell g i v) i w = setCell g i w := by
  simp [setCell]

theorem setCell_self (g : Grid) (i : Fin 81) : setCell g i (g i) = g := by
  simp [setCell]

theorem setCell_undo (g : Grid) (i : Fin 81) (v : Int) (h : g i = 0) :
    setCell (setCell g i v) i 0 = g := by
  rw [setCell_setCell, ← h, setCell_self]

theorem inRange_setCell (g : Grid) (hr : InRange g) (i : Fin 81) (v : Int)
    (h0 : 0 ≤ v) (h9 : v ≤ 9) : InRange (setCell g i v) := by
  intro j
  by_cases h : j = i
  · subst h; rw [setCell_same]; exact ⟨h0, h9⟩
  · rw [setCell_other g i j v h]; exact hr j

theorem emptyCount_setCell_lt (g : Grid) (i : Fin 81) (v : Int) (h0 : g i = 0) (hv : v ≠ 0) :
    emptyCount (setCell g i v) < emptyCount g := by
  unfold emptyCount
  apply Finset.card_lt_card
  rw [Finset.ssubset_iff_of_subset]
  · refine ⟨i, by simp [h0], by simp [setCell_same, hv]⟩
  · intro j hj
    simp only [Finset.mem_filter, Finset.mem_univ, true_and] at hj ⊢
    by_cases h : j = i
    · subst h; exact h0
    · rwa [setCell_other g i j v h] at hj

theorem emptyCount_le (g : Grid) : emptyCount g ≤ 81 := by
  unfold emptyCount
  have := Finset.card_filter_le (Finset.univ : Finset (Fin 81)) (fun i => g i = 0)
  simpa using this

theorem and_shift_eq_zero (m d : Nat) : m &&& (1 <<< d) = 0 ↔ m.testBit d = false := by
  rw [Nat.one_shiftLeft]
  constructor
  · intro h
    have h1 : (m &&& 2 ^ d).testBit d = false := by rw [h]; simp
    rw [Nat.testBit_and, Nat.testBit_two_pow] at h1
    simpa using h1
  · intro h
    apply Nat.zero_of_testBit_eq_false
    intro k
    rw [Nat.testBit_and, Nat.testBit_two_pow]
    by_cases hk : d = k
    · subst hk; simp [h]
    · simp [hk]

/-! ## totality of countSolutions -/

theorem countLoop_total (rec : Grid → Option (Int × Grid)) (idx : Fin 81) (mask : Nat)
    (limit : Int) (g : Grid) (h0 : g idx = 0) :
    ∀ (ds : List Nat) (total : Int),
      (∀ d ∈ ds, mask.testBit d = true →
        ∃ r, rec (setCell g idx (d : Int)) = some (r, setCell g idx (d : Int))) →
      ∃ r, countLoop rec idx mask limit ds g total = some (r, g) := by
  intro ds
  induction ds with
  | nil => intro total _; exact ⟨total, rfl⟩
  | cons d ds ih =>
    intro total hrec
    have hrec2 : ∀ e ∈ ds, mask.testBit e = true →
        ∃ r, rec (setCell g idx (e : Int)) = some (r, setCell g idx (e : Int)) :=
      fun e he => hrec e (List.mem_cons_of_mem _ he)
    by_cases hb : mask.testBit d = true
    · obtain ⟨r, hr⟩ := hrec d (List.mem_cons_self _ _) hb
      have hne : ¬ (mask &&& (1 <<< d) = 0) := by
        rw [and_shift_eq_zero]; simp [hb]
      by_cases hl : total + r ≥ limit
      · exact ⟨total + r, by simp [countLoop, hne, hr, hl, setCell_undo g idx _ h0]⟩
      · obtain ⟨r2, hr2⟩ := ih (total + r) hrec2
        exact ⟨r2, by simp [countLoop, hne, hr, hl, setCell_undo g idx _ h0, hr2]⟩
    · have heq : mask &&& (1 <<< d) = 0 := by
        rw [and_shift_eq_zero]; simpa using hb
      obtain ⟨r2, hr2⟩ := ih total hrec2
      exact ⟨r2, by simp [countLoop, heq, hr2]⟩

theorem mem_range_digits (d : Nat) : d ∈ List.range' 1 9 ↔ 1 ≤ d ∧ d ≤ 9 := by
  simp only [List.mem_range', Nat.one_mul]
  constructor
  · rintro ⟨i, hi, rfl⟩; omega
  · rintro ⟨h1, h9⟩; exact ⟨d - 1, by omega, by omega⟩

theorem countRec_total (limit : Int) :
    ∀ (fuel : Nat) (g : Grid), InRange g → emptyCount g < fuel →
      ∃ r, countRec limit fuel g = some (r, g) := by
  intro fuel
  induction fuel with
  | zero => intro g _ h; omega
  | succ fuel ih =>
    intro g hr hfuel
    obtain ⟨f, hf, _, _, hc⟩ := findBestEmpty_spec g hr
    obtain ⟨fidx, fmask, fok⟩ := f
    cases fok with
    | false => exact ⟨0, by simp [countRec, hf]⟩
    | true =>
      cases fidx with
      | none => exact ⟨1, by simp [countRec, hf]⟩
      | some i =>
        obtain ⟨hi0, _, _⟩ := hc rfl i rfl
        have hloop := countLoop_total (countRec limit fuel) i fmask limit g hi0
          (List.range' 1 9) 0 (fun d hd _ => by
            rw [mem_range_digits] at hd
            apply ih
            · exact inRange_setCell g hr i d (by omega) (by omega)
            · have := emptyCount_setCell_lt g i (d : Int) hi0 (by omega)
              omega)
        obtain ⟨r, hrr⟩ := hloop
        exact ⟨r, by simp [countRec, hf, hrr]⟩

theorem countSolutions_total (g : Grid) (hr : InRange g) (limit : Int) :
    ∃ r, countSolutions g limit = some r := by
  obtain ⟨r, h⟩ := countRec_total limit 82 g hr (by have := emptyCount_le g; omega)
  exact ⟨r, by simp [countSolutions, h]⟩

theorem findBestEmpty_full (g : Grid) (hr : InRange g) (hfull : ∀ i, g i ≠ 0) :
    findBestEmpty g = some ⟨none, 0, true⟩ := by
  obtain ⟨f, hf, hc1, hc2, hc3⟩ := findBestEmpty_spec g hr
  rw [hf]
  obtain ⟨fidx, fmask, fok⟩ := f
  cases fok with
  | false =>
    obtain ⟨_, _, i, hi, _⟩ := hc1 rfl
    exact absurd hi (hfull i)
  | true =>
    cases fidx with
    | none =>
      have := (hc2 rfl rfl).1
      simp only at this
      subst this
      rfl
    | some i => exact absurd (hc3 rfl i rfl).1 (hfull i)

theorem countSolutions_full (g : Grid) (hr : InRange g) (hfull : ∀ i, g i ≠ 0) (limit : Int) :
    countSolutions g limit = some 1 := by
  simp [countSolutions, countRec, findBestEmpty_full g hr hfull]

/-! ## The clue-removal loop -/

/-- Loop invariant: the puzzle has entries in 0..9, the uniqueness counter answers 1 on it,
and the clue counter is between the target and the number of clues. -/
theorem carveLoop_spec (target : Int) :
    ∀ (perm : List (Fin 81)) (puz : Grid) (clues : Int),
      InRange puz → countSolutions puz 2 = some 1 →
      ∃ puz2 clues2, carveLoop target perm puz clues = some (puz2, clues2) ∧
        InRange puz2 ∧ countSolutions puz2 2 = some 1 ∧
        (clues ≤ (clueCount puz : Int) → min target clues ≤ clues2 ∧
          clues2 ≤ (clueCount puz2 : Int)) := by
  intro perm
  induction perm with
  | nil =>
    intro puz clues hr h1
    exact ⟨puz, clues, rfl, hr, h1, fun h => ⟨min_le_right _ _, h⟩⟩
  | cons pos rest ih =>
    intro puz clues hr h1
    by_cases hstop : clues ≤ target
    · exact ⟨puz, clues, by simp [carveLoop, hstop], hr, h1,
        fun h => ⟨min_le_right _ _, h⟩⟩
    · have hr0 : InRange (setCell puz pos 0) := inRange_setCell puz hr pos 0 (by omega) (by omega)
      obtain ⟨n, hn⟩ := countSolutions_total (setCell puz pos 0) hr0 2
      by_cases hn1 : n = 1
      · subst hn1
        obtain ⟨puz2, clues2, h2, h3, h4, h5⟩ := ih (setCell puz pos 0) (clues - 1) hr0 hn
        refine ⟨puz2, clues2, by simp [carveLoop, hstop, hn, h2], h3, h4, fun hc => ?_⟩
        have hcc : (clueCount puz : Int) ≤ (clueCount (setCell puz pos 0) : Int) + 1 := by
          have : clueCount puz ≤ clueCount (setCell puz pos 0) + 1 := by
            unfold clueCount
            have hsub : Finset.univ.filter (fun i => puz i ≠ 0) ⊆
                insert pos (Finset.univ.filter (fun i => setCell puz pos 0 i ≠ 0)) := by
              intro j hj
              simp only [Finset.mem_filter, Finset.mem_univ, true_and, Finset.mem_insert] at hj ⊢
              by_cases h : j = pos
              · exact Or.inl h
              · right; rwa [setCell_other puz pos j 0 h]
            exact le_trans (Finset.card_le_card hsub) (Finset.card_insert_le _ _)
          exact_mod_cast this
        have := h5 (by omega)
        refine ⟨?_, this.2⟩
        have h6 := this.1
        rcases le_total target clues with h7 | h7
        · rw [min_eq_left h7]
          rcases le_total target (clues - 1) with h8 | h8
          · rwa [min_eq_left h8] at h6
          · omega
        · omega
      · obtain ⟨puz2, clues2, h2, h3, h4, h5⟩ := ih puz clues hr h1
        exact ⟨puz2, clues2,
          by simp [carveLoop, hstop, hn, hn1, setCell_setCell, setCell_self, h2], h3, h4, h5⟩

/-! ## Completions -/

theorem peer_symm (i j : Fin 81) (h : Peer i j) : Peer j i := by
  unfold Peer sameRow sameCol sameBox at *
  omega

/-- A completion puts a candidate in every empty cell. -/
theorem completion_not_occurs (g h : Grid) (hc : Completion g h) (i : Fin 81) (h0 : g i = 0) :
    ¬ Occurs g i (h i) := by
  rintro ⟨j, hp, hj⟩
  obtain ⟨hd, hk, hv⟩ := hc
  have hji : j ≠ i := by
    rintro rfl
    have := hd j; omega
  have hgj : g j ≠ 0 := by have := hd i; omega
  have := hv i j (Ne.symm hji) hp (by have := hd i; omega)
  rw [hk j hgj, hj] at this
  exact this rfl

theorem completion_testBit (g h : Grid) (hr : InRange g) (hc : Completion g h) (i : Fin 81)
    (h0 : g i = 0) : (maskOf g i).testBit (h i).toNat = true := by
  rw [(maskOf_bits g hr i h0).2]
  have hd := hc.1 i
  refine ⟨by omega, by omega, ?_⟩
  have : (((h i).toNat : Nat) : Int) = h i := Int.toNat_of_nonneg (by omega)
  rw [this]
  exact completion_not_occurs g h hc i h0

theorem no_completion_of_dead (g : Grid) (hr : InRange g) (i : Fin 81) (h0 : g i = 0)
    (hm : candCount g i = 0) : ¬ ∃ h, Completion g h := by
  rintro ⟨h, hc⟩
  have := completion_testBit g h hr hc i h0
  rw [(candCount_eq_zero g hr i h0).1 hm] at this
  simp at this

theorem completion_setCell (g h : Grid) (i : Fin 81) (d : Int) (h0 : g i = 0) (hd : d ≠ 0) :
    Completion (setCell g i d) h ↔ (Completion g h ∧ h i = d) := by
  unfold Completion
  constructor
  · rintro ⟨h1, h2, h3⟩
    refine ⟨⟨h1, fun j hj => ?_, h3⟩, ?_⟩
    · have hji : j ≠ i := by rintro rfl; exact hj h0
      have := h2 j (by rw [setCell_other g i j d hji]; exact hj)
      rwa [setCell_other g i j d hji] at this
    · have := h2 i (by rw [setCell_same]; exact hd)
      rwa [setCell_same] at this
  · rintro ⟨⟨h1, h2, h3⟩, h4⟩
    refine ⟨h1, fun j hj => ?_, h3⟩
    by_cases hji : j = i
    · subst hji; rw [setCell_same]; exact h4
    · rw [setCell_other g i j d hji] at hj ⊢
      exact h2 j hj

theorem validGrid_setCell (g : Grid) (hv : ValidGrid g) (i : Fin 81) (d : Int)
    (hno : ¬ Occurs g i d) : ValidGrid (setCell g i d) := by
  intro a b hab hp ha
  by_cases hai : a = i
  · subst hai
    have hb : b ≠ a := Ne.symm hab
    rw [setCell_same, setCell_other g a b d hb]
    intro heq
    exact hno ⟨b, hp, heq.symm⟩
  · rw [setCell_other g i a d hai] at ha ⊢
    by_cases hbi : b = i
    · subst hbi
      rw [setCell_same]
      intro heq
      exact hno ⟨a, peer_symm a b hp, heq⟩
    · rw [setCell_other g i b d hbi]
      exact hv a b hab hp ha

theorem validGrid_clear (g : Grid) (hv : ValidGrid g) (i : Fin 81) :
    ValidGrid (setCell g i 0) := by
  intro a b hab hp ha
  by_cases hai : a = i
  · subst hai; rw [setCell_same] at ha; exact absurd rfl ha
  · rw [setCell_other g i a 0 hai] at ha ⊢
    by_cases hbi : b = i
    · subst hbi; rw [setCell_same]; exact ha
    · rw [setCell_other g i b 0 hbi]; exact hv a b hab hp ha

theorem inRange_emptyGrid : InRange emptyGrid := fun _ => ⟨le_refl _, by simp [emptyGrid]⟩

theorem validGrid_emptyGrid : ValidGrid emptyGrid := fun _ _ _ _ h => absurd rfl h

/-- A full valid grid is its own and only completion. -/
theorem completion_of_full (g : Grid) (hr : InRange g) (hv : ValidGrid g)
    (hfull : ∀ i, g i ≠ 0) (h : Grid) : Completion g h ↔ h = g := by
  constructor
  · rintro ⟨_, h2, _⟩
    funext i
    exact h2 i (hfull i)
  · rintro rfl
    exact ⟨fun i => by have := hr i; have := hfull i; omega, fun _ _ => rfl, hv⟩

/-! ## The shuffle is a permutation -/

theorem swapAt_perm (xs : List Int) (i j : Nat) (hi : i < xs.length) (hj : j < xs.length) :
    List.Perm (swapAt xs i j) xs := by
  rw [List.perm_iff_count]
  intro b
  unfold swapAt
  have hj2 : j < (xs.set i (xs.getD j 0)).length := by simpa using hj
  rw [List.count_set _ _ _ _ hj2, List.count_set _ _ _ _ hi]
  have e1 : xs.getD j 0 = xs[j] := List.getD_eq_getElem _ _ hj
  have e2 : xs.getD i 0 = xs[i] := List.getD_eq_getElem _ _ hi
  have e3 : (xs.set i (xs.getD j 0))[j] = xs[j] := by
    rw [List.getElem_set]
    split
    · exact e1
    · rfl
  rw [e3, e1, e2]
  have hci : (if (xs[i] == b) = true then 1 else 0) ≤ List.count b xs := by
    split
    · rename_i hb
      have : xs[i] = b := by simpa using hb
      have hm : b ∈ xs := this ▸ List.getElem_mem hi
      exact List.count_pos_iff.2 hm
    · exact Nat.zero_le _
  omega

theorem shuffleLoop_perm :
    ∀ (k : Nat) (xs : List Int) (r : Rng), k < xs.length ∨ k = 0 →
      List.Perm (shuffleLoop k xs r).1 xs := by
  intro k
  induction k with
  | zero => intro xs r _; exact List.Perm.refl _
  | succ k ih =>
    intro xs r hk
    have hk2 : k + 1 < xs.length := by omega
    have hj : r.draws r.pos % (k + 2) < xs.length :=
      lt_of_lt_of_le (Nat.mod_lt _ (by omega)) (by omega)
    have hp := swapAt_perm xs (k + 1) (r.draws r.pos % (k + 2)) hk2 hj
    unfold shuffleLoop
    exact (ih _ _ (Or.inl (by rw [hp.length_eq]; omega))).trans hp

theorem shuffle_perm (xs : List Int) (r : Rng) : List.Perm (shuffle xs r).1 xs :=
  shuffleLoop_perm (xs.length - 1) xs r (by omega)

theorem mem_maskToDigits (m : Nat) (d : Int) :
    d ∈ maskToDigits m ↔ ∃ k : Nat, 1 ≤ k ∧ k ≤ 9 ∧ m.testBit k = true ∧ d = (k : Int) := by
  unfold maskToDigits
  simp only [List.mem_map, List.mem_filter, mem_range_digits, decide_eq_true_eq, ne_eq]
  constructor
  · rintro ⟨k, ⟨⟨h1, h9⟩, hb⟩, rfl⟩
    refine ⟨k, h1, h9, ?_, rfl⟩
    rw [and_shift_eq_zero] at hb
    simpa using hb
  · rintro ⟨k, h1, h9, hb, rfl⟩
    refine ⟨k, ⟨⟨h1, h9⟩, ?_⟩, rfl⟩
    rw [and_shift_eq_zero]
    simp [hb]

theorem mem_shuffle_mask (g : Grid) (hr : InRange g) (i : Fin 81) (h0 : g i = 0) (r : Rng)
    (d : Int) :
    d ∈ (shuffle (maskToDigits (maskOf g i)) r).1 ↔ (1 ≤ d ∧ d ≤ 9 ∧ ¬ Occurs g i d) := by
  rw [(shuffle_perm _ r).mem_iff, mem_maskToDigits]
  constructor
  · rintro ⟨k, h1, h9, hb, rfl⟩
    have := ((maskOf_bits g hr i h0).2 k).1 hb
    exact ⟨by omega, by omega, this.2.2⟩
  · rintro ⟨h1, h9, hno⟩
    have hk : ((d.toNat : Nat) : Int) = d := Int.toNat_of_nonneg (by omega)
    refine ⟨d.toNat, by omega, by omega, ?_, hk.symm⟩
    rw [(maskOf_bits g hr i h0).2]
    exact ⟨by omega, by omega, by rw [hk]; exact hno⟩

/-! ## fillRandom -/

theorem fillLoop_spec (rec : Grid → Rng → Option (Bool × Grid × Rng)) (idx : Fin 81)
    (g : Grid) (h0 : g idx = 0)
    (hrec : ∀ (d : Int) (r : Rng), 1 ≤ d → d ≤ 9 → ¬ Occurs g idx d →
      ∃ b g2 r2, rec (setCell g idx d) r = some (b, g2, r2) ∧ FillPost (setCell g idx d) b g2) :
    ∀ (ds : List Int) (r : Rng), (∀ d ∈ ds, 1 ≤ d ∧ d ≤ 9 ∧ ¬ Occurs g idx d) →
      ∃ b g2 r2, fillLoop rec idx ds g r = some (b, g2, r2) ∧
        (b = false → g2 = g ∧ ∀ d ∈ ds, ¬ ∃ h, Completion (setCell g idx d) h) ∧
        (b = true → Completion g g2) := by
  intro ds
  induction ds with
  | nil =>
    intro r _
    exact ⟨false, g, r, rfl, fun _ => ⟨rfl, by simp⟩, by simp⟩
  | cons d ds ih =>
    intro r hds
    obtain ⟨h1, h9, hno⟩ := hds d (List.mem_cons_self _ _)
    obtain ⟨b, g1, r1, hcall, hpf, hpt⟩ := hrec d r h1 h9 hno
    cases b with
    | true =>
      refine ⟨true, g1, r1, by simp [fillLoop, hcall], by simp, fun _ => ?_⟩
      exact ((completion_setCell g g1 idx d h0 (by omega)).1 (hpt rfl)).1
    | false =>
      obtain ⟨hg1, hnone⟩ := hpf rfl
      subst hg1
      obtain ⟨b2, g2, r2, hcall2, hpf2, hpt2⟩ :=
        ih r1 (fun e he => hds e (List.mem_cons_of_mem _ he))
      refine ⟨b2, g2, r2, by simp [fillLoop, hcall, setCell_undo g idx d h0, hcall2], ?_, hpt2⟩
      intro hb
      obtain ⟨hg2, hrest⟩ := hpf2 hb
      refine ⟨hg2, fun e he => ?_⟩
      rcases List.mem_cons.1 he with h | h
      · subst h; exact hnone
      · exact hrest e h

theorem fillRandom_spec :
    ∀ (fuel : Nat) (g : Grid) (r : Rng), InRange g → ValidGrid g → emptyCount g < fuel →
      ∃ b g2 r2, fillRandom fuel g r = some (b, g2, r2) ∧ FillPost g b g2 := by
  intro fuel
  induction fuel with
  | zero => intro g r _ _ h; omega
  | succ fuel ih =>
    intro g r hr hv hfuel
    obtain ⟨f, hf, hc1, hc2, hc3⟩ := findBestEmpty_spec g hr
    obtain ⟨fidx, fmask, fok⟩ := f
    cases fok with
    | false =>
      obtain ⟨_, _, i, hi0, hdead, _⟩ := hc1 rfl
      exact ⟨false, g, r, by simp [fillRandom, hf],
        fun _ => ⟨rfl, no_completion_of_dead g hr i hi0 hdead⟩, by simp⟩
    | true =>
      cases fidx with
      | none =>
        have hfull := (hc2 rfl rfl).2
        exact ⟨true, g, r, by simp [fillRandom, hf], by simp,
          fun _ => (completion_of_full g hr hv hfull g).2 rfl⟩
      | some i =>
        obtain ⟨hi0, hmask, _⟩ := hc3 rfl i rfl
        simp only at hmask
        subst hmask
        have hrec : ∀ (d : Int) (r : Rng), 1 ≤ d → d ≤ 9 → ¬ Occurs g i d →
            ∃ b g2 r2, fillRandom fuel (setCell g i d) r = some (b, g2, r2) ∧
              FillPost (setCell g i d) b g2 := by
          intro d r h1 h9 hno
          apply ih
          · exact inRange_setCell g hr i d (by omega) h9
          · exact validGrid_setCell g hv i d hno
          · have := emptyCount_setCell_lt g i d hi0 (by omega)
            omega
        obtain ⟨b, g2, r2, hcall, hpf, hpt⟩ := fillLoop_spec (fillRandom fuel) i g hi0 hrec
          (shuffle (maskToDigits (maskOf g i)) r).1 (shuffle (maskToDigits (maskOf g i)) r).2
          (fun d hd => (mem_shuffle_mask g hr i hi0 r d).1 hd)
        refine ⟨b, g2, r2, by simp [fillRandom, hf, hcall], fun hb => ?_, hpt⟩
        obtain ⟨hg2, hnone⟩ := hpf hb
        refine ⟨hg2, ?_⟩
        rintro ⟨h, hcomp⟩
        have hcand := completion_not_occurs g h hcomp i hi0
        have hd := hcomp.1 i
        have hmem := (mem_shuffle_mask g hr i hi0 r (h i)).2 ⟨hd.1, hd.2, hcand⟩
        exact hnone (h i) hmem
          ⟨h, (completion_setCell g h i (h i) hi0 (by omega)).2 ⟨hcomp, rfl⟩⟩

/-! ## Rows, columns and boxes of a complete valid grid -/

theorem card_digitSet : digitSet.card = 9 := by
  simp [digitSet]

theorem unit_exact {ι : Type} [Fintype ι] [DecidableEq ι] (hcard : Fintype.card ι = 9)
    (g : Grid) (hd : ∀ i, 1 ≤ g i ∧ g i ≤ 9) (hv : ValidGrid g) (u : ι → Fin 81)
    (hinj : Function.Injective u) (hpeer : ∀ a b, Peer (u a) (u b)) :
    Finset.univ.image (fun c : ι => g (u c)) = digitSet := by
  apply Finset.eq_of_subset_of_card_le
  · intro x hx
    obtain ⟨c, _, rfl⟩ := Finset.mem_image.1 hx
    exact Finset.mem_Icc.2 (hd (u c))
  · rw [card_digitSet, Finset.card_image_of_injective, Finset.card_univ, hcard]
    intro a b hab
    by_contra hne
    have h1 : u a ≠ u b := fun h => hne (hinj h)
    exact hv (u a) (u b) h1 (hpeer a b) (by have := hd (u a); omega) hab

theorem complete_units (g : Grid) (hd : ∀ i, 1 ≤ g i ∧ g i ≤ 9) (hv : ValidGrid g) :
    (∀ r, rowSet g r = digitSet) ∧ (∀ c, colSet g c = digitSet) ∧
      (∀ br bc, boxSet g br bc = digitSet) := by
  refine ⟨fun r => ?_, fun c => ?_, fun br bc => ?_⟩
  · apply unit_exact (by simp) g hd hv (rowCell r)
    · intro a b h
      simp only [rowCell, Fin.ext_iff] at h
      exact Fin.ext (by omega)
    · intro a b
      left
      simp only [sameRow, rowCell]
      omega
  · apply unit_exact (by simp) g hd hv (colCell c)
    · intro a b h
      simp only [colCell, Fin.ext_iff] at h
      exact Fin.ext (by omega)
    · intro a b
      right; left
      simp only [sameCol, colCell]
      omega
  · apply unit_exact (by simp) g hd hv (boxCellOf br bc)
    · rintro ⟨a1, a2⟩ ⟨b1, b2⟩ h
      simp only [boxCellOf, Fin.ext_iff] at h
      have h1 : a1 = b1 := Fin.ext (by omega)
      have h2 : a2 = b2 := Fin.ext (by omega)
      rw [h1, h2]
    · rintro ⟨a1, a2⟩ ⟨b1, b2⟩
      right; right
      simp only [sameBox, boxCellOf]
      omega

/-! ## Size of the running total -/

theorem countLoop_le (rec : Grid → Option (Int × Grid)) (idx : Fin 81) (mask : Nat)
    (limit B : Int) (hB : 0 ≤ B)
    (hrec : ∀ g r g2, rec g = some (r, g2) → 0 ≤ r ∧ r ≤ B) :
    ∀ (ds : List Nat) (g : Grid) (total r : Int) (g2 : Grid), 0 ≤ total → total < limit →
      countLoop rec idx mask limit ds g total = some (r, g2) →
      0 ≤ r ∧ r ≤ limit - 1 + B := by
  intro ds
  induction ds with
  | nil =>
    intro g total r g2 h0 hlt h
    simp only [countLoop, Option.some.injEq, Prod.mk.injEq] at h
    omega
  | cons d ds ih =>
    intro g total r g2 h0 hlt h
    unfold countLoop at h
    split at h
    · exact ih g total r g2 h0 hlt h
    · split at h
      · exact absurd h (by simp)
      · rename_i r1 g1 hcall
        have hb := hrec _ _ _ hcall
        split at h
        · simp only [Option.some.injEq, Prod.mk.injEq] at h
          omega
        · exact ih _ (total + r1) r g2 (by omega) (by omega) h

/-- The result of the closure `rec` is bounded by `fuel * (limit - 1) + 1`, on every grid. -/
theorem countRec_le (limit : Int) (hl : 1 ≤ limit) :
    ∀ (fuel : Nat) (g : Grid) (r : Int) (g2 : Grid), countRec limit fuel g = some (r, g2) →
      0 ≤ r ∧ r ≤ (fuel : Int) * (limit - 1) + 1 := by
  intro fuel
  induction fuel with
  | zero => intro g r g2 h; simp [countRec] at h
  | succ fuel ih =>
    intro g r g2 h
    have hnn : (0 : Int) ≤ (fuel : Int) * (limit - 1) :=
      mul_nonneg (Int.natCast_nonneg _) (by omega)
    unfold countRec at h
    split at h
    · exact absurd h (by simp)
    · split at h
      · simp only [Option.some.injEq, Prod.mk.injEq] at h
        push_cast
        constructor <;> nlinarith
      · split at h
        · simp only [Option.some.injEq, Prod.mk.injEq] at h
          push_cast
          constructor <;> nlinarith
        · have := countLoop_le (countRec limit fuel) _ _ limit ((fuel : Int) * (limit - 1) + 1)
            (by omega) ih _ _ 0 r g2 (le_refl _) (by omega) h
          push_cast
          constructor <;> nlinarith

/-- The total `countSolutions` returns never exceeds `82 * limit`: a Go `int` holds it
whenever it holds `82 * limit`. -/
theorem countSolutions_le (g : Grid) (limit r : Int) (hl : 1 ≤ limit)
    (h : countSolutions g limit = some r) : 0 ≤ r ∧ r ≤ 82 * limit := by
  unfold countSolutions at h
  cases hc : countRec limit 82 g with
  | none => rw [hc] at h; simp at h
  | some p =>
    rw [hc] at h
    obtain ⟨r1, g1⟩ := p
    have := countRec_le limit hl 82 g r1 g1 hc
    simp only [Option.map_some', Option.some.injEq] at h
    subst h
    push_cast at this
    constructor <;> nlinarith

/-! ## Counting completions -/

theorem mem_completions (g : Grid) (h : Fin 81 → Fin 10) :
    h ∈ completions g ↔ Completion g (toGrid h) := by
  simp only [completions, Finset.mem_filter, Finset.mem_univ, true_and]

theorem solutionCount_dead (g : Grid) (hnone : ¬ ∃ h, Completion g h) : solutionCount g = 0 := by
  unfold solutionCount
  rw [Finset.card_eq_zero, Finset.eq_empty_iff_forall_not_mem]
  intro h hh
  exact hnone ⟨toGrid h, (mem_completions g h).1 hh⟩

theorem toGrid_injective : Function.Injective toGrid := by
  intro a b hab
  funext i
  have := congrFun hab i
  simp only [toGrid] at this
  exact Fin.ext (by exact_mod_cast this)

theorem solutionCount_full (g : Grid) (hr : InRange g) (hv : ValidGrid g)
    (hfull : ∀ i, g i ≠ 0) : solutionCount g = 1 := by
  unfold solutionCount
  rw [Finset.card_eq_one]
  refine ⟨fun i => ⟨(g i).toNat, by have := hr i; omega⟩, ?_⟩
  ext h
  rw [mem_completions, completion_of_full g hr hv hfull, Finset.mem_singleton]
  constructor
  · intro hg
    funext i
    have := congrFun hg i
    simp only [toGrid] at this
    exact Fin.ext (by simp only []; omega)
  · rintro rfl
    funext i
    simp only [toGrid]
    have := hr i
    omega

theorem completions_fiber (g : Grid) (i : Fin 81) (h0 : g i = 0) (d : Fin 10) :
    ((completions g).filter (fun h => h i = d)).card =
      if d.val = 0 then 0 else solutionCount (setCell g i (d.val : Int)) := by
  split
  · rename_i hd
    rw [Finset.card_eq_zero, Finset.eq_empty_iff_forall_not_mem]
    intro h hh
    rw [Finset.mem_filter, mem_completions] at hh
    have := hh.1.1 i
    simp only [toGrid] at this
    rw [hh.2] at this
    omega
  · rename_i hd
    unfold solutionCount
    apply congrArg Finset.card
    ext h
    rw [Finset.mem_filter, mem_completions, mem_completions,
      completion_setCell g (toGrid h) i _ h0 (by exact_mod_cast hd)]
    simp only [toGrid]
    constructor
    · rintro ⟨h1, h2⟩; exact ⟨h1, by rw [h2]⟩
    · rintro ⟨h1, h2⟩; exact ⟨h1, Fin.ext (by exact_mod_cast h2)⟩

theorem solutionCount_not_candidate (g : Grid) (hr : InRange g) (i : Fin 81) (h0 : g i = 0)
    (d : Nat) (hd : d ≠ 0) (hb : (maskOf g i).testBit d = false) :
    solutionCount (setCell g i (d : Int)) = 0 := by
  apply solutionCount_dead
  rintro ⟨h, hc⟩
  obtain ⟨hc1, hc2⟩ := (completion_setCell g h i d h0 (by exact_mod_cast hd)).1 hc
  have := completion_testBit g h hr hc1 i h0
  rw [hc2] at this
  simp only [Int.toNat_ofNat] at this
  rw [this] at hb
  exact Bool.noConfusion hb

theorem solutionCount_split (g : Grid) (hr : InRange g) (i : Fin 81) (h0 : g i = 0) :
    (solutionCount g : Int) = branchSum g i (maskOf g i) (List.range' 1 9) := by
  have h1 : solutionCount g =
      ∑ d : Fin 10, ((completions g).filter (fun h => h i = d)).card := by
    unfold solutionCount
    exact Finset.card_eq_sum_card_fiberwise (fun _ _ => Finset.mem_univ _)
  have h2 : ∀ d : Nat, d ≠ 0 →
      (if (maskOf g i).testBit d = true then (solutionCount (setCell g i (d : Int)) : Int)
        else 0) = (solutionCount (setCell g i (d : Int)) : Int) := by
    intro d hd
    split
    · rfl
    · rename_i hb
      rw [solutionCount_not_candidate g hr i h0 d hd (by simpa using hb)]
      rfl
  have hb : branchSum g i (maskOf g i) (List.range' 1 9) =
      ((List.range' 1 9).map (fun d : Nat => (solutionCount (setCell g i (d : Int)) : Int))).sum := by
    unfold branchSum
    apply congrArg List.sum
    apply List.map_congr_left
    intro d hd
    rw [mem_range_digits] at hd
    exact h2 d (Nat.ne_of_gt hd.1)
  have hlist : List.range' 1 9 = [1, 2, 3, 4, 5, 6, 7, 8, 9] := by decide
  rw [h1, hb, hlist]
  simp only [completions_fiber g i h0]
  simp [Fin.sum_univ_succ]

theorem countLoop_spec (rec : Grid → Option (Int × Grid)) (idx : Fin 81) (mask : Nat)
    (limit : Int) (g : Grid) (h0 : g idx = 0) :
    ∀ (ds : List Nat) (total : Int), 0 ≤ total →
      (∀ d ∈ ds, mask.testBit d = true →
        ∃ r, rec (setCell g idx (d : Int)) = some (r, setCell g idx (d : Int)) ∧
          CountPost limit r (solutionCount (setCell g idx (d : Int)))) →
      ∃ r, countLoop rec idx mask limit ds g total = some (r, g) ∧
        (total + branchSum g idx mask ds < limit → r = total + branchSum g idx mask ds) ∧
        (limit ≤ total + branchSum g idx mask ds →
          limit ≤ r ∧ r ≤ total + branchSum g idx mask ds) := by
  intro ds
  induction ds with
  | nil =>
    intro total _ _
    refine ⟨total, rfl, ?_, ?_⟩ <;> simp [branchSum]
  | cons d ds ih =>
    intro total ht hrec
    have hrec2 : ∀ e ∈ ds, mask.testBit e = true →
        ∃ r, rec (setCell g idx (e : Int)) = some (r, setCell g idx (e : Int)) ∧
          CountPost limit r (solutionCount (setCell g idx (e : Int))) :=
      fun e he => hrec e (List.mem_cons_of_mem _ he)
    have hnn : 0 ≤ branchSum g idx mask ds := by
      unfold branchSum
      apply List.sum_nonneg
      intro x hx
      obtain ⟨e, _, rfl⟩ := List.mem_map.1 hx
      split
      · exact Int.natCast_nonneg _
      · exact le_refl _
    by_cases hb : mask.testBit d = true
    · obtain ⟨r, hr, hp1, hp2⟩ := hrec d (List.mem_cons_self _ _) hb
      have hne : ¬ (mask &&& (1 <<< d) = 0) := by
        rw [and_shift_eq_zero]; simp [hb]
      have hsum : branchSum g idx mask (d :: ds) =
          (solutionCount (setCell g idx (d : Int)) : Int) + branchSum g idx mask ds := by
        simp [branchSum, hb]
      have hK : (0 : Int) ≤ (solutionCount (setCell g idx (d : Int)) : Int) :=
        Int.natCast_nonneg _
      rw [hsum]
      by_cases hlim : total + r ≥ limit
      · refine ⟨total + r, by simp [countLoop, hne, hr, hlim, setCell_undo g idx _ h0], ?_, ?_⟩
        · intro hlt
          exfalso
          by_cases hk : (solutionCount (setCell g idx (d : Int)) : Int) < limit
          · have := hp1 hk; omega
          · have := hp2 (by omega); omega
        · intro _
          refine ⟨hlim, ?_⟩
          by_cases hk : (solutionCount (setCell g idx (d : Int)) : Int) < limit
          · have := hp1 hk; omega
          · have := hp2 (by omega); omega
      · have hk : (solutionCount (setCell g idx (d : Int)) : Int) < limit := by
          by_contra hk
          have := hp2 (by omega); omega
        have hrk := hp1 hk
        obtain ⟨r2, hr2, hq1, hq2⟩ := ih (total + r) (by omega) hrec2
        refine ⟨r2, by simp [countLoop, hne, hr, hlim, setCell_undo g idx _ h0, hr2], ?_, ?_⟩
        · intro hlt
          rw [hq1 (by omega)]; omega
        · intro hge
          have := hq2 (by omega)
          omega
    · have heq : mask &&& (1 <<< d) = 0 := by
        rw [and_shift_eq_zero]; simpa using hb
      have hsum : branchSum g idx mask (d :: ds) = branchSum g idx mask ds := by
        simp [branchSum, hb]
      rw [hsum]
      obtain ⟨r2, hr2, hq1, hq2⟩ := ih total ht hrec2
      exact ⟨r2, by simp [countLoop, heq, hr2], hq1, hq2⟩

theorem countRec_spec (limit : Int) (hl : 1 ≤ limit) :
    ∀ (fuel : Nat) (g : Grid), InRange g → ValidGrid g → emptyCount g < fuel →
      ∃ r, countRec limit fuel g = some (r, g) ∧ CountPost limit r (solutionCount g) := by
  intro fuel
  induction fuel with
  | zero => intro g _ _ h; omega
  | succ fuel ih =>
    intro g hr hv hfuel
    obtain ⟨f, hf, hc1, hc2, hc3⟩ := findBestEmpty_spec g hr
    obtain ⟨fidx, fmask, fok⟩ := f
    cases fok with
    | false =>
      obtain ⟨_, _, i, hi0, hdead, _⟩ := hc1 rfl
      have hK := solutionCount_dead g (no_completion_of_dead g hr i hi0 hdead)
      refine ⟨0, by simp [countRec, hf], ?_⟩
      rw [hK]
      exact ⟨fun _ => rfl, fun h => by simp at h; omega⟩
    | true =>
      cases fidx with
      | none =>
        have hK := solutionCount_full g hr hv (hc2 rfl rfl).2
        refine ⟨1, by simp [countRec, hf], ?_⟩
        rw [hK]
        exact ⟨fun _ => rfl, fun h => ⟨h, le_refl _⟩⟩
      | some i =>
        obtain ⟨hi0, hmask, _⟩ := hc3 rfl i rfl
        simp only at hmask
        subst hmask
        obtain ⟨r, hcall, hq1, hq2⟩ := countLoop_spec (countRec limit fuel) i (maskOf g i)
          limit g hi0 (List.range' 1 9) 0 (le_refl _) (fun d hd hb => by
            rw [mem_range_digits] at hd
            have hno := (((maskOf_bits g hr i hi0).2 d).1 hb).2.2
            apply ih
            · exact inRange_setCell g hr i d (by omega) (by omega)
            · exact validGrid_setCell g hv i d hno
            · have := emptyCount_setCell_lt g i (d : Int) hi0 (by omega)
              omega)
        rw [zero_add, ← solutionCount_split g hr i hi0] at hq1 hq2
        exact ⟨r, by simp [countRec, hf, hcall], hq1, hq2⟩

/-! ## The stepwise solver -/

theorem frameOK_getD (G : Grid) (f : Frame) (hf : FrameOK G f) (m : Nat)
    (hm : m < f.candidates.length) :
    1 ≤ f.candidates.getD m 0 ∧ f.candidates.getD m 0 ≤ 9 ∧
      ¬ Occurs G f.idx (f.candidates.getD m 0) := by
  rw [List.getD_eq_getElem _ _ hm]
  exact (hf.2.2.1 _).1 (List.getElem_mem hm)

theorem frameOK_current (G : Grid) (f : Frame) (hf : FrameOK G f) (h1 : 1 ≤ f.next) :
    1 ≤ f.current ∧ f.current ≤ 9 ∧ ¬ Occurs G f.idx f.current :=
  frameOK_getD G f hf (f.next - 1) (by have := hf.2.2.2; omega)

/-- When every candidate of a frame is tried out, the grid it was created on has no
completion. -/
theorem noCompletion_of_triedOut (G : Grid) (f : Frame) (hf : FrameOK G f)
    (ht : TriedOut G f f.candidates.length) : NoCompletion G := by
  rintro ⟨h, hc⟩
  have hno := completion_not_occurs G h hc f.idx hf.1
  have hd := hc.1 f.idx
  have hmem : h f.idx ∈ f.candidates := (hf.2.2.1 _).2 ⟨hd.1, hd.2, hno⟩
  obtain ⟨m, hm, hget⟩ := List.mem_iff_getElem.1 hmem
  apply ht m hm
  rw [List.getD_eq_getElem _ _ hm, hget]
  exact ⟨h, (completion_setCell G h f.idx (h f.idx) hf.1 (by omega)).2 ⟨hc, rfl⟩⟩

theorem triedOut_succ (G : Grid) (f : Frame) (k : Nat) (ht : TriedOut G f k)
    (hk : NoCompletion (setCell G f.idx (f.candidates.getD k 0))) : TriedOut G f (k + 1) := by
  intro m hm
  by_cases h : m = k
  · subst h; exact hk
  · exact ht m (by omega)

theorem pathInv_nil_inv (g0 G : Grid) (h : PathInv g0 [] G) : G = g0 := by
  generalize hl : ([] : List Frame) = l at h
  cases h with
  | nil => rfl
  | snoc init G2 f _ _ _ _ => simp at hl

theorem pathInv_snoc_inv (g0 G : Grid) (init : List Frame) (f : Frame)
    (h : PathInv g0 (init ++ [f]) G) :
    ∃ G2, PathInv g0 init G2 ∧ FrameOK G2 f ∧ 1 ≤ f.next ∧ TriedOut G2 f (f.next - 1) ∧
      G = setCell G2 f.idx f.current := by
  generalize hl : init ++ [f] = l at h
  cases h with
  | nil => simp at hl
  | snoc init2 G2 f2 hp hf h1 ht =>
    obtain ⟨h3, h4⟩ := List.append_inj' hl rfl
    have h5 : f = f2 := by simpa using h4
    subst h3 h5
    exact ⟨G2, hp, hf, h1, ht, rfl⟩

theorem searchInv_inRange (g0 : Grid) (hr0 : InRange g0) (stack : List Frame) (grid : Grid)
    (h : SearchInv g0 stack grid) : InRange grid := by
  rcases h with ⟨_, rfl⟩ | ⟨init, top, G, _, _, hf, ht⟩
  · exact hr0
  · rcases ht with ⟨rfl, _⟩ | ⟨rfl, h1, _⟩
    · exact hf.2.1
    · have := frameOK_current G top hf h1
      exact inRange_setCell G hf.2.1 top.idx _ (by omega) this.2.1

theorem frameOK_push (grid : Grid) (hr : InRange grid) (idx : Fin 81) (h0 : grid idx = 0)
    (r : Rng) : FrameOK grid (Frame.mk idx (shuffle (maskToDigits (maskOf grid idx)) r).1 0) :=
  ⟨h0, hr, fun d => mem_shuffle_mask grid hr idx h0 r d, Nat.zero_le _⟩

theorem step_inv (g0 : Grid) (hr0 : InRange g0) (s : Solver) (grid : Grid)
    (hinv : StateInv g0 s grid) :
    ∃ s2 grid2, step s grid = some (s2, grid2) ∧ StateInv g0 s2 grid2 := by
  by_cases hterm : s.last.Kind = ActionKind.ActionSolved ∨ s.last.Kind = ActionKind.ActionFailed
  · exact ⟨s, grid, by simp [step, hterm], hinv⟩
  · have hsearch := hinv.2 hterm
    have hr := searchInv_inRange g0 hr0 s.stack grid hsearch
    obtain ⟨f, hf, hc1, hc2, hc3⟩ := findBestEmpty_spec grid hr
    rcases hsearch with ⟨hnil, hg⟩ | ⟨init, top, G, hstack, hpath, hfr, htop⟩
    · -- empty stack: the first call
      subst hg
      have hlast : s.stack.getLast? = none := by rw [hnil]; rfl
      obtain ⟨fidx, fmask, fok⟩ := f
      cases fok with
      | false =>
        obtain ⟨_, _, i, hi0, hdead, _⟩ := hc1 rfl
        refine ⟨{ s with last := ⟨ActionKind.ActionFailed, -1, 0, 0, 0⟩ }, grid,
          by simp [step, hterm, hlast, hf], ?_⟩
        exact ⟨fun _ => ⟨no_completion_of_dead grid hr i hi0 hdead, hnil, rfl⟩, by simp⟩
      | true =>
        cases fidx with
        | none =>
          refine ⟨{ s with last := ⟨ActionKind.ActionSolved, -1, 0, 0, 0⟩ }, grid,
            by simp [step, hterm, hlast, hf], ?_⟩
          exact ⟨by simp, by simp⟩
        | some i =>
          obtain ⟨hi0, hmask, _⟩ := hc3 rfl i rfl
          simp only at hmask
          subst hmask
          refine ⟨pushChoose s i (maskOf grid i), grid, by simp [step, hterm, hlast, hf], ?_⟩
          refine ⟨by simp [pushChoose], fun _ => Or.inr ⟨[], _, grid, ?_, PathInv.nil,
            frameOK_push grid hr i hi0 s.rng, Or.inl ⟨rfl, fun m hm => absurd hm (Nat.not_lt_zero m)⟩⟩⟩
          simp [pushChoose, hnil]
    · have hlast : s.stack.getLast? = some top := by rw [hstack]; exact List.getLast?_concat _
      have hdrop : s.stack.dropLast = init := by rw [hstack]; exact List.dropLast_concat
      by_cases h0 : grid top.idx = 0
      · -- the cell of the top frame is empty: try the next candidate or pop
        have hA : grid = G ∧ TriedOut G top top.next := by
          rcases htop with h | ⟨hg, h1, _⟩
          · exact h
          · exfalso
            have := frameOK_current G top hfr h1
            rw [hg, setCell_same] at h0
            omega
        obtain ⟨hg, htried⟩ := hA
        subst hg
        by_cases hex : top.next ≥ top.candidates.length
        · have hnext : top.next = top.candidates.length := le_antisymm hfr.2.2.2 hex
          have hnoG : NoCompletion grid :=
            noCompletion_of_triedOut grid top hfr (hnext ▸ htried)
          rcases List.eq_nil_or_concat init with hinit | ⟨init2, prev, hinit⟩
          · subst hinit
            have hgg := pathInv_nil_inv g0 grid hpath
            have hlast2 : s.stack.dropLast.getLast? = none := by rw [hdrop]; rfl
            refine ⟨{ s with stack := s.stack.dropLast,
                             last := ⟨ActionKind.ActionFailed, -1, 0, 0, 0⟩ }, grid,
              by simp [step, hterm, hlast, h0, hex, hlast2], ?_⟩
            exact ⟨fun _ => ⟨hgg ▸ hnoG, hdrop, hgg⟩, by simp⟩
          · rw [List.concat_eq_append] at hinit
            subst hinit
            obtain ⟨G2, hp2, hf2, h12, ht2, hG⟩ := pathInv_snoc_inv g0 grid init2 prev hpath
            have hlast2 : s.stack.dropLast.getLast? = some prev := by
              rw [hdrop]; exact List.getLast?_concat _
            refine ⟨{ s with stack := s.stack.dropLast,
                             last := ⟨ActionKind.ActionBacktrack, (prev.idx.val : Int), 0, 0,
                               (s.stack.dropLast.length : Int)⟩ },
              setCell grid prev.idx 0, by simp [step, hterm, hlast, h0, hex, hlast2], ?_⟩
            refine ⟨by simp, fun _ => Or.inr ⟨init2, prev, G2, hdrop, hp2, hf2, Or.inl ⟨?_, ?_⟩⟩⟩
            · rw [hG]; exact setCell_undo G2 prev.idx _ hf2.1
            · have := triedOut_succ G2 prev (prev.next - 1) ht2 (by
                have hcur : prev.candidates.getD (prev.next - 1) 0 = prev.current := rfl
                rw [hcur, ← hG]; exact hnoG)
              have he : prev.next - 1 + 1 = prev.next := by omega
              rwa [he] at this
        · have hlt : top.next < top.candidates.length := by omega
          refine ⟨{ s with stack := s.stack.dropLast ++ [{ top with next := top.next + 1 }],
                           steps := s.steps + 1,
                           last := ⟨ActionKind.ActionTry, (top.idx.val : Int),
                             top.candidates.getD top.next 0, 0, (s.stack.length : Int)⟩ },
            setCell grid top.idx (top.candidates.getD top.next 0),
            by simp [step, hterm, hlast, h0, hex], ?_⟩
          refine ⟨by simp, fun _ => Or.inr ⟨init, { top with next := top.next + 1 }, grid,
            by simp [hdrop], hpath, ⟨hfr.1, hfr.2.1, hfr.2.2.1, hlt⟩, Or.inr ⟨rfl, by simp, ?_⟩⟩⟩
          simpa [TriedOut] using htried
      · -- the cell of the top frame holds a value: go deeper
        have hB : grid = setCell G top.idx top.current ∧ 1 ≤ top.next ∧
            TriedOut G top (top.next - 1) := by
          rcases htop with ⟨hg, _⟩ | h
          · exfalso; rw [hg] at h0; exact h0 hfr.1
          · exact h
        obtain ⟨hg, h1, htried⟩ := hB
        obtain ⟨fidx, fmask, fok⟩ := f
        cases fok with
        | false =>
          obtain ⟨_, _, i, hi0, hdead, _⟩ := hc1 rfl
          have hnoG : NoCompletion grid := no_completion_of_dead grid hr i hi0 hdead
          refine ⟨{ s with last := ⟨ActionKind.ActionBacktrack, (top.idx.val : Int), 0, 0,
                             (s.stack.length : Int)⟩ },
            setCell grid top.idx 0, by simp [step, hterm, hlast, h0, hf], ?_⟩
          refine ⟨by simp, fun _ => Or.inr ⟨init, top, G, hstack, hpath, hfr, Or.inl ⟨?_, ?_⟩⟩⟩
          · rw [hg]; exact setCell_undo G top.idx _ hfr.1
          · have := triedOut_succ G top (top.next - 1) htried (by
              have hcur : top.candidates.getD (top.next - 1) 0 = top.current := rfl
              rw [hcur, ← hg]; exact hnoG)
            have he : top.next - 1 + 1 = top.next := by omega
            rwa [he] at this
        | true =>
          cases fidx with
          | none =>
            refine ⟨{ s with last := ⟨ActionKind.ActionSolved, -1, 0, 0, 0⟩ }, grid,
              by simp [step, hterm, hlast, h0, hf], ?_⟩
            exact ⟨by simp, by simp⟩
          | some i =>
            obtain ⟨hi0, hmask, _⟩ := hc3 rfl i rfl
            simp only at hmask
            subst hmask
            refine ⟨pushChoose s i (maskOf grid i), grid,
              by simp [step, hterm, hlast, h0, hf], ?_⟩
            refine ⟨by simp [pushChoose], fun _ => Or.inr ⟨init ++ [top], _, grid, ?_, ?_,
              frameOK_push grid hr i hi0 s.rng,
              Or.inl ⟨rfl, fun m hm => absurd hm (Nat.not_lt_zero m)⟩⟩⟩
            · simp [pushChoose, hstack]
            · rw [hg]; exact PathInv.snoc init G top hpath hfr h1 htried

theorem stateInv_reset (g0 : Grid) (s : Solver) (rng : Rng) :
    StateInv g0 (s.Reset rng) g0 :=
  ⟨by simp [Solver.Reset], fun _ => Or.inl ⟨rfl, rfl⟩⟩

theorem stepN_inv (g0 : Grid) (hr0 : InRange g0) (s : Solver) (hinv : StateInv g0 s g0) :
    ∀ n, ∃ s2 grid2, stepN n s g0 = some (s2, grid2) ∧ StateInv g0 s2 grid2 := by
  intro n
  induction n with
  | zero => exact ⟨s, g0, rfl, hinv⟩
  | succ n ih =>
    obtain ⟨s1, g1, h1, hi1⟩ := ih
    obtain ⟨s2, g2, h2, hi2⟩ := step_inv g0 hr0 s1 g1 hi1
    exact ⟨s2, g2, by simp [stepN, h1, h2], hi2⟩

/-! ## Case analysis of step -/

theorem step_cases (s : Solver) (grid : Grid) (s2 : Solver) (g2 : Grid)
    (h : step s grid = some (s2, g2)) : StepCase s grid s2 g2 := by
  by_cases hterm : s.terminal
  · have hterm2 := hterm
    unfold Solver.terminal at hterm2
    have hcalc : step s grid = some (s, grid) := by simp [step, hterm2]
    rw [hcalc] at h
    injection h with h; injection h with h1 h2; subst h1 h2
    exact StepCase.terminal hterm
  · have hterm2 := hterm
    unfold Solver.terminal at hterm2
    rcases List.eq_nil_or_concat s.stack with hnil | ⟨init, top, hstack⟩
    · have hlast : s.stack.getLast? = none := by rw [hnil]; rfl
      cases hf : findBestEmpty grid with
      | none => simp [step, hterm2, hlast, hf] at h
      | some r =>
        cases hok : r.ok with
        | false =>
          have hcalc : step s grid =
              some ({ s with last := ⟨ActionKind.ActionFailed, -1, 0, 0, 0⟩ }, grid) := by
            simp [step, hterm2, hlast, hf, hok]
          rw [hcalc] at h
          injection h with h; injection h with h1 h2; subst h1 h2
          exact StepCase.firstFailed r hterm hnil hf hok
        | true =>
          cases hidx : r.idx with
          | none =>
            have hcalc : step s grid =
                some ({ s with last := ⟨ActionKind.ActionSolved, -1, 0, 0, 0⟩ }, grid) := by
              simp [step, hterm2, hlast, hf, hok, hidx]
            rw [hcalc] at h
            injection h with h; injection h with h1 h2; subst h1 h2
            exact StepCase.firstSolved r hterm hnil hf hok hidx
          | some i =>
            have hcalc : step s grid = some (pushChoose s i r.mask, grid) := by
              simp [step, hterm2, hlast, hf, hok, hidx]
            rw [hcalc] at h
            injection h with h; injection h with h1 h2; subst h1 h2
            exact StepCase.firstChoose r i hterm hnil hf hok hidx
    · rw [List.concat_eq_append] at hstack
      have hlast : s.stack.getLast? = some top := by rw [hstack]; exact List.getLast?_concat _
      have hdrop : s.stack.dropLast = init := by rw [hstack]; exact List.dropLast_concat
      by_cases h0 : grid top.idx = 0
      · by_cases hex : top.next ≥ top.candidates.length
        · rcases List.eq_nil_or_concat init with hinit | ⟨init2, prev, hinit⟩
          · subst hinit
            have hlast2 : s.stack.dropLast.getLast? = none := by rw [hdrop]; rfl
            have hcalc : step s grid =
                some ({ s with stack := [],
                               last := ⟨ActionKind.ActionFailed, -1, 0, 0, 0⟩ }, grid) := by
              simp [step, hterm2, hlast, h0, hex, hlast2, hdrop]
            rw [hcalc] at h
            injection h with h; injection h with h1 h2; subst h1 h2
            exact StepCase.popFailed top hterm (by simpa using hstack) h0 hex
          · rw [List.concat_eq_append] at hinit
            subst hinit
            have hlast2 : s.stack.dropLast.getLast? = some prev := by
              rw [hdrop]; exact List.getLast?_concat _
            have hlen : s.stack.dropLast.length = (init2 ++ [prev]).length := by rw [hdrop]
            have hcalc : step s grid =
                some ({ s with stack := init2 ++ [prev],
                               last := ⟨ActionKind.ActionBacktrack, (prev.idx.val : Int), 0, 0,
                                 ((init2 ++ [prev]).length : Int)⟩ },
                      setCell grid prev.idx 0) := by
              unfold step
              rw [if_neg hterm2]
              simp only [hlast, h0, hex, hlast2, if_true]
              rw [hlen, hdrop]
            rw [hcalc] at h
            injection h with h; injection h with h1 h2; subst h1 h2
            exact StepCase.popBacktrack init2 prev top hterm hstack h0 hex
        · have hcalc : step s grid =
              some ({ s with stack := init ++ [{ top with next := top.next + 1 }],
                             steps := s.steps + 1,
                             last := ⟨ActionKind.ActionTry, (top.idx.val : Int),
                               top.candidates.getD top.next 0, 0, (s.stack.length : Int)⟩ },
                    setCell grid top.idx (top.candidates.getD top.next 0)) := by
            unfold step
            rw [if_neg hterm2]
            simp only [hlast, h0, hex, if_true, if_false]
            rw [hdrop]
          rw [hcalc] at h
          injection h with h; injection h with h1 h2; subst h1 h2
          exact StepCase.tryNext init top hterm hstack h0 (by omega)
      · cases hf : findBestEmpty grid with
        | none => simp [step, hterm2, hlast, h0, hf] at h
        | some r =>
          cases hok : r.ok with
          | false =>
            have hcalc : step s grid =
                some ({ s with last := ⟨ActionKind.ActionBacktrack, (top.idx.val : Int), 0, 0,
                                 (s.stack.length : Int)⟩ },
                      setCell grid top.idx 0) := by
              unfold step
              rw [if_neg hterm2]
              simp only [hlast, h0, hf, hok, if_true, if_false]
            rw [hcalc] at h
            injection h with h; injection h with h1 h2; subst h1 h2
            exact StepCase.localBacktrack init top r hterm hstack h0 hf hok
          | true =>
            cases hidx : r.idx with
            | none =>
              have hcalc : step s grid =
                  some ({ s with last := ⟨ActionKind.ActionSolved, -1, 0, 0, 0⟩ }, grid) := by
                simp [step, hterm2, hlast, h0, hf, hok, hidx]
              rw [hcalc] at h
              injection h with h; injection h with h1 h2; subst h1 h2
              exact StepCase.deepSolved init top r hterm hstack h0 hf hok hidx
            | some i =>
              have hcalc : step s grid = some (pushChoose s i r.mask, grid) := by
                simp [step, hterm2, hlast, h0, hf, hok, hidx]
              rw [hcalc] at h
              injection h with h; injection h with h1 h2; subst h1 h2
              exact StepCase.deepChoose init top r i hterm hstack h0 hf hok hidx

/-! ## Invariants of the grid under step -/

/-- A cell selected by the scan is empty, whatever the entries of the grid. -/
theorem findLoop_idx (g : Grid) :
    ∀ (l : List (Fin 81)) (bi : Option (Fin 81)) (bm bc : Nat) (r : Found) (i : Fin 81),
      findLoop g l bi bm bc = some r → r.idx = some i → bi = some i ∨ g i = 0 := by
  intro l
  induction l with
  | nil =>
    intro bi bm bc r i h hi
    simp only [findLoop, Option.some.injEq] at h
    subst h
    cases bi with
    | none => simp [findFinish] at hi
    | some b => left; simpa [findFinish] using hi
  | cons j rest ih =>
    intro bi bm bc r i h hi
    unfold findLoop at h
    split at h
    · exact ih bi bm bc r i h hi
    · rename_i hj0
      have hj : g j = 0 := by simpa using hj0
      split at h
      · exact absurd h (by simp)
      · rename_i m hm
        simp only at h
        split at h
        · simp only [Option.some.injEq] at h
          subst h
          simp at hi
        · split at h
          · split at h
            · simp only [findFinish, Option.some.injEq] at h
              subst h
              have : j = i := by simpa using hi
              subst this
              exact Or.inr hj
            · rcases ih (some j) m _ r i h hi with h1 | h1
              · have : j = i := by simpa using h1
                subst this
                exact Or.inr hj
              · exact Or.inr h1
          · exact ih bi bm bc r i h hi

theorem findBestEmpty_idx (g : Grid) (r : Found) (i : Fin 81) (h : findBestEmpty g = some r)
    (hi : r.idx = some i) : g i = 0 := by
  rcases findLoop_idx g _ none 0 10 r i h hi with h1 | h1
  · exact absurd h1 (by simp)
  · exact h1

theorem extends_setCell (g0 g : Grid) (he : Extends g0 g) (i : Fin 81) (v : Int)
    (h0 : g0 i = 0) : Extends g0 (setCell g i v) := by
  intro j hj
  have hji : j ≠ i := by rintro rfl; exact hj h0
  rw [setCell_other g i j v hji]
  exact he j hj

theorem frameInv_step (g0 : Grid) (s : Solver) (grid : Grid) (s2 : Solver) (g2 : Grid)
    (hinv : FrameInv g0 s grid) (h : step s grid = some (s2, g2)) : FrameInv g0 s2 g2 := by
  obtain ⟨hext, hfr⟩ := hinv
  have hpush : ∀ (r : Found) (i : Fin 81), findBestEmpty grid = some r → r.idx = some i →
      FrameInv g0 (pushChoose s i r.mask) grid := by
    intro r i hf hidx
    have hi0 := findBestEmpty_idx grid r i hf hidx
    have hg0 : g0 i = 0 := by
      by_contra hne
      rw [hext i hne] at hi0
      exact hne hi0
    refine ⟨hext, fun f hf2 => ?_⟩
    simp only [pushChoose, List.mem_append, List.mem_singleton] at hf2
    rcases hf2 with h1 | h1
    · exact hfr f h1
    · subst h1; exact hg0
  cases step_cases s grid s2 g2 h with
  | terminal _ => exact ⟨hext, hfr⟩
  | firstFailed r _ _ _ _ => exact ⟨hext, hfr⟩
  | firstSolved r _ _ _ _ _ => exact ⟨hext, hfr⟩
  | firstChoose r i _ _ hf _ hidx => exact hpush r i hf hidx
  | popFailed top _ _ _ _ => exact ⟨hext, fun f hf => absurd hf (List.not_mem_nil f)⟩
  | popBacktrack init prev top _ hstack _ _ =>
    have hsub : ∀ f ∈ init ++ [prev], g0 f.idx = 0 := fun f hf =>
      hfr f (by rw [hstack]; exact List.mem_append_left _ hf)
    exact ⟨extends_setCell g0 grid hext prev.idx 0 (hsub prev (by simp)), hsub⟩
  | tryNext init top _ hstack _ _ =>
    have htop : g0 top.idx = 0 := hfr top (by rw [hstack]; simp)
    refine ⟨extends_setCell g0 grid hext top.idx _ htop, fun f hf => ?_⟩
    simp only [List.mem_append, List.mem_singleton] at hf
    rcases hf with h1 | h1
    · exact hfr f (by rw [hstack]; exact List.mem_append_left _ h1)
    · subst h1; exact htop
  | localBacktrack init top r _ hstack _ _ _ =>
    have htop : g0 top.idx = 0 := hfr top (by rw [hstack]; simp)
    exact ⟨extends_setCell g0 grid hext top.idx 0 htop, hfr⟩
  | deepSolved init top r _ _ _ _ _ _ => exact ⟨hext, hfr⟩
  | deepChoose init top r i _ _ _ hf _ hidx => exact hpush r i hf hidx

theorem frameInv_stepN (g0 : Grid) (s : Solver) (hinv : FrameInv g0 s g0) :
    ∀ (n : Nat) (s2 : Solver) (g2 : Grid), stepN n s g0 = some (s2, g2) → FrameInv g0 s2 g2 := by
  intro n
  induction n with
  | zero =>
    intro s2 g2 h
    simp only [stepN, Option.some.injEq, Prod.mk.injEq] at h
    obtain ⟨rfl, rfl⟩ := h
    exact hinv
  | succ n ih =>
    intro s2 g2 h
    unfold stepN at h
    split at h
    · exact absurd h (by simp)
    · rename_i s1 g1 h1
      exact frameInv_step g0 s1 g1 s2 g2 (ih s1 g1 h1) h

theorem frameInv_reset (g0 : Grid) (s : Solver) (rng : Rng) : FrameInv g0 (s.Reset rng) g0 :=
  ⟨fun _ _ => rfl, fun f hf => absurd hf (by simp [Solver.Reset])⟩

theorem pathInv_valid (g0 : Grid) (hv0 : ValidGrid g0) (init : List Frame) (G : Grid)
    (h : PathInv g0 init G) : ValidGrid G := by
  induction h with
  | nil => exact hv0
  | snoc init G f _ hf h1 _ ih =>
    exact validGrid_setCell G ih f.idx f.current (frameOK_current G f hf h1).2.2

theorem searchInv_valid (g0 : Grid) (hv0 : ValidGrid g0) (stack : List Frame) (grid : Grid)
    (h : SearchInv g0 stack grid) : ValidGrid grid := by
  rcases h with ⟨_, rfl⟩ | ⟨init, top, G, _, hp, hf, ht⟩
  · exact hv0
  · have hG := pathInv_valid g0 hv0 init G hp
    rcases ht with ⟨rfl, _⟩ | ⟨rfl, h1, _⟩
    · exact hG
    · exact validGrid_setCell G hG top.idx top.current (frameOK_current G top hf h1).2.2

theorem gridInv_step (g0 : Grid) (hr0 : InRange g0) (hv0 : ValidGrid g0) (s : Solver)
    (grid : Grid) (s2 : Solver) (g2 : Grid) (hgi : GridInv s grid)
    (hst2 : StateInv g0 s2 g2) (h : step s grid = some (s2, g2)) : GridInv s2 g2 := by
  by_cases ht2 : s2.last.Kind = ActionKind.ActionSolved ∨ s2.last.Kind = ActionKind.ActionFailed
  · have hfull : ∀ r : Found, findBestEmpty grid = some r → r.ok = true → r.idx = none →
        ∀ i, grid i ≠ 0 := by
      intro r hf hok hidx
      obtain ⟨r2, hf2, _, hc2, _⟩ := findBestEmpty_spec grid hgi.1
      rw [hf] at hf2
      have : r = r2 := by simpa using hf2
      subst this
      exact (hc2 hok hidx).2
    cases step_cases s grid s2 g2 h with
    | terminal _ => exact hgi
    | firstFailed r _ _ _ _ => exact ⟨hgi.1, hgi.2.1, by simp⟩
    | firstSolved r _ _ hf hok hidx => exact ⟨hgi.1, hgi.2.1, fun _ => hfull r hf hok hidx⟩
    | firstChoose r i _ _ _ _ _ => simp [pushChoose] at ht2
    | popFailed top _ _ _ _ => exact ⟨hgi.1, hgi.2.1, by simp⟩
    | popBacktrack init prev top _ _ _ _ => simp at ht2
    | tryNext init top _ _ _ _ => simp at ht2
    | localBacktrack init top r _ _ _ _ _ => simp at ht2
    | deepSolved init top r _ _ _ hf hok hidx =>
      exact ⟨hgi.1, hgi.2.1, fun _ => hfull r hf hok hidx⟩
    | deepChoose init top r i _ _ _ _ _ _ => simp [pushChoose] at ht2
  · have hs := hst2.2 ht2
    exact ⟨searchInv_inRange g0 hr0 _ _ hs, searchInv_valid g0 hv0 _ _ hs,
      fun hk => absurd (Or.inl hk) ht2⟩

theorem gridInv_stepN (g0 : Grid) (hr0 : InRange g0) (hv0 : ValidGrid g0) (s : Solver)
    (rng : Rng) :
    ∀ n, ∃ s2 g2, stepN n (s.Reset rng) g0 = some (s2, g2) ∧ StateInv g0 s2 g2 ∧
      GridInv s2 g2 := by
  intro n
  induction n with
  | zero =>
    exact ⟨s.Reset rng, g0, rfl, stateInv_reset g0 s rng, hr0, hv0, by simp [Solver.Reset]⟩
  | succ n ih =>
    obtain ⟨s1, g1, h1, hst, hgi⟩ := ih
    obtain ⟨s2, g2, h2, hst2⟩ := step_inv g0 hr0 s1 g1 hst
    exact ⟨s2, g2, by simp [stepN, h1, h2], hst2,
      gridInv_step g0 hr0 hv0 s1 g1 s2 g2 hgi hst2 h2⟩

set_option maxRecDepth 100000 in
theorem validGrid_solvedGrid : ValidGrid solvedGrid := by decide

theorem findBestEmpty_deadGrid : findBestEmpty deadGrid = some ⟨some 0, 2, true⟩ := by decide

theorem step_reset_deadGrid :
    step ((freshSolver zeroRng).Reset zeroRng) deadGrid =
      some (pushChoose ((freshSolver zeroRng).Reset zeroRng) 0 2, deadGrid) := by
  simp [step, Solver.Reset, findBestEmpty_deadGrid]

theorem stepN_one (s : Solver) (g : Grid) : stepN 1 s g = step s g := by
  simp [stepN]

/-! ## Termination of the search -/

/-- Each case of `StepCase` is the result of `step`. -/
theorem step_of_case (s : Solver) (grid : Grid) (s2 : Solver) (g2 : Grid)
    (h : StepCase s grid s2 g2) : step s grid = some (s2, g2) := by
  cases h with
  | terminal ht =>
    unfold Solver.terminal at ht
    simp [step, ht]
  | firstFailed r ht hnil hf hok =>
    unfold Solver.terminal at ht
    have hlast : s.stack.getLast? = none := by rw [hnil]; rfl
    simp [step, ht, hlast, hf, hok]
  | firstSolved r ht hnil hf hok hidx =>
    unfold Solver.terminal at ht
    have hlast : s.stack.getLast? = none := by rw [hnil]; rfl
    simp [step, ht, hlast, hf, hok, hidx]
  | firstChoose r i ht hnil hf hok hidx =>
    unfold Solver.terminal at ht
    have hlast : s.stack.getLast? = none := by rw [hnil]; rfl
    simp [step, ht, hlast, hf, hok, hidx]
  | popFailed top ht hstack h0 hex =>
    unfold Solver.terminal at ht
    have hlast : s.stack.getLast? = some top := by rw [hstack]; rfl
    have hdrop : s.stack.dropLast = [] := by rw [hstack]; rfl
    have hlast2 : s.stack.dropLast.getLast? = none := by rw [hdrop]; rfl
    simp [step, ht, hlast, h0, hex, hlast2, hdrop]
  | popBacktrack init prev top ht hstack h0 hex =>
    unfold Solver.terminal at ht
    have hlast : s.stack.getLast? = some top := by rw [hstack]; exact List.getLast?_concat _
    have hdrop : s.stack.dropLast = init ++ [prev] := by rw [hstack]; exact List.dropLast_concat
    have hlast2 : s.stack.dropLast.getLast? = some prev := by
      rw [hdrop]; exact List.getLast?_concat _
    have hlen : s.stack.dropLast.length = (init ++ [prev]).length := by rw [hdrop]
    unfold step
    rw [if_neg ht]
    simp only [hlast, h0, hex, hlast2, if_true]
    rw [hlen, hdrop]
  | tryNext init top ht hstack h0 hlt =>
    unfold Solver.terminal at ht
    have hlast : s.stack.getLast? = some top := by rw [hstack]; exact List.getLast?_concat _
    have hdrop : s.stack.dropLast = init := by rw [hstack]; exact List.dropLast_concat
    have hex : ¬ top.next ≥ top.candidates.length := by omega
    unfold step
    rw [if_neg ht]
    simp only [hlast, h0, hex, if_true, if_false]
    rw [hdrop]
  | localBacktrack init top r ht hstack h0 hf hok =>
    unfold Solver.terminal at ht
    have hlast : s.stack.getLast? = some top := by rw [hstack]; exact List.getLast?_concat _
    unfold step
    rw [if_neg ht]
    simp only [hlast, h0, hf, hok, if_true, if_false]
  | deepSolved init top r ht hstack h0 hf hok hidx =>
    unfold Solver.terminal at ht
    have hlast : s.stack.getLast? = some top := by rw [hstack]; exact List.getLast?_concat _
    simp [step, ht, hlast, h0, hf, hok, hidx]
  | deepChoose init top r i ht hstack h0 hf hok hidx =>
    unfold Solver.terminal at ht
    have hlast : s.stack.getLast? = some top := by rw [hstack]; exact List.getLast?_concat _
    simp [step, ht, hlast, h0, hf, hok, hidx]

theorem stepN_succ (n : Nat) (s : Solver) (g : Grid) :
    stepN (n + 1) s g = (stepN n s g).bind (fun p => step p.1 p.2) := by
  show (match stepN n s g with
    | none => none
    | some (s1, g1) => step s1 g1) = _
  cases stepN n s g with
  | none => rfl
  | some p => rfl

theorem stepN_add (a b : Nat) (s : Solver) (g : Grid) :
    stepN (a + b) s g = (stepN a s g).bind (fun p => stepN b p.1 p.2) := by
  induction b with
  | zero =>
    cases h : stepN a s g with
    | none => simp [h]
    | some p => simp [h, stepN]
  | succ b ih =>
    rw [← Nat.add_assoc, stepN_succ, ih, Option.bind_assoc]
    simp only [stepN_succ]

theorem stepN_chain (a b : Nat) (s : Solver) (g : Grid) (s1 : Solver) (g1 : Grid)
    (s2 : Solver) (g2 : Grid) (h1 : stepN a s g = some (s1, g1))
    (h2 : stepN b s1 g1 = some (s2, g2)) : stepN (a + b) s g = some (s2, g2) := by
  rw [stepN_add, h1]
  exact h2

theorem stepN_of_case (s : Solver) (g : Grid) (s1 : Solver) (g1 : Grid)
    (h : StepCase s g s1 g1) : stepN 1 s g = some (s1, g1) := by
  rw [stepN_one]
  exact step_of_case s g s1 g1 h

/-- A frame whose candidates are used up is popped in one call. -/
theorem finishes_pop (G : Grid) (init : List Frame) (top : Frame) (h0 : G top.idx = 0)
    (hex : top.next ≥ top.candidates.length) (s : Solver) (ht : ¬ s.terminal)
    (hstack : s.stack = init ++ [top]) :
    ∃ n s2 g2, stepN n s G = some (s2, g2) ∧
      (s2.terminal ∨ ∃ init2 prev, init = init2 ++ [prev] ∧ s2.stack = init ∧
        ¬ s2.terminal ∧ g2 = setCell G prev.idx 0) := by
  rcases List.eq_nil_or_concat init with hinit | ⟨init2, prev, hinit⟩
  · subst hinit
    exact ⟨1, _, _, stepN_of_case s G _ _ (StepCase.popFailed top ht (by simpa using hstack) h0 hex),
      Or.inl (Or.inr rfl)⟩
  · rw [List.concat_eq_append] at hinit
    subst hinit
    exact ⟨1, _, _, stepN_of_case s G _ _ (StepCase.popBacktrack init2 prev top ht hstack h0 hex),
      Or.inr ⟨init2, prev, rfl, rfl, by simp [Solver.terminal], rfl⟩⟩

/-- The loop over the candidates of a frame comes to an end, when every search on a grid
with fewer empty cells does. -/
theorem finishes_frame (e : Nat)
    (IH : ∀ (G : Grid) (s : Solver), InRange G → emptyCount G < e → ¬ s.terminal →
      (s.stack = [] ∨ ∃ init top, s.stack = init ++ [top] ∧ G top.idx ≠ 0) → Finishes s G)
    (G : Grid) (hr : InRange G) (he : emptyCount G < e + 1) (init : List Frame)
    (idx : Fin 81) (cands : List Int) (hidx : G idx = 0)
    (hc : ∀ d ∈ cands, 1 ≤ d ∧ d ≤ 9) :
    ∀ (k next : Nat), cands.length ≤ next + k → ∀ s : Solver, ¬ s.terminal →
      s.stack = init ++ [⟨idx, cands, next⟩] →
      ∃ n s2 g2, stepN n s G = some (s2, g2) ∧
        (s2.terminal ∨ ∃ init2 prev, init = init2 ++ [prev] ∧ s2.stack = init ∧
          ¬ s2.terminal ∧ g2 = setCell G prev.idx 0) := by
  intro k
  induction k with
  | zero =>
    intro next hk s ht hstack
    exact finishes_pop G init ⟨idx, cands, next⟩ hidx (by simpa using hk) s ht hstack
  | succ k ihk =>
    intro next hk s ht hstack
    by_cases hex : next ≥ cands.length
    · exact finishes_pop G init ⟨idx, cands, next⟩ hidx hex s ht hstack
    · have hlt : next < cands.length := by omega
      have hv := hc (cands.getD next 0) (by
        rw [List.getD_eq_getElem _ _ hlt]; exact List.getElem_mem hlt)
      have hstep : stepN 1 s G =
          some (({ s with stack := init ++ [⟨idx, cands, next + 1⟩],
                          steps := s.steps + 1,
                          last := ⟨ActionKind.ActionTry, (idx.val : Int), cands.getD next 0, 0,
                            (s.stack.length : Int)⟩ } : Solver),
                setCell G idx (cands.getD next 0)) :=
        stepN_of_case s G _ _ (StepCase.tryNext init ⟨idx, cands, next⟩ ht hstack hidx hlt)
      have hr1 : InRange (setCell G idx (cands.getD next 0)) :=
        inRange_setCell G hr idx _ (by omega) hv.2
      have he1 : emptyCount (setCell G idx (cands.getD next 0)) < e := by
        have := emptyCount_setCell_lt G idx (cands.getD next 0) hidx (by omega)
        omega
      obtain ⟨n1, s2, g2, h2, hcase⟩ := IH (setCell G idx (cands.getD next 0))
        ({ s with stack := init ++ [⟨idx, cands, next + 1⟩],
                  steps := s.steps + 1,
                  last := ⟨ActionKind.ActionTry, (idx.val : Int), cands.getD next 0, 0,
                    (s.stack.length : Int)⟩ } : Solver)
        hr1 he1 (by simp [Solver.terminal])
        (Or.inr ⟨init, ⟨idx, cands, next + 1⟩, rfl, by
          simp only [setCell_same]; omega⟩)
      have hrun := stepN_chain 1 n1 s G _ _ s2 g2 hstep h2
      rcases hcase with hterm | ⟨init3, top3, hst3, hs2, hnt2, hg2⟩
      · exact ⟨1 + n1, s2, g2, hrun, Or.inl hterm⟩
      · simp only at hst3 hs2
        obtain ⟨_, htop⟩ := List.append_inj' hst3 rfl
        have htop3 : top3 = ⟨idx, cands, next + 1⟩ := by
          have := (List.cons.inj htop).1
          exact this.symm
        subst htop3
        simp only at hg2
        rw [setCell_undo G idx _ hidx] at hg2
        rw [hg2] at hrun
        obtain ⟨n3, s3, g3, h3, hcase3⟩ := ihk (next + 1) (by omega) s2 hnt2 hs2
        exact ⟨1 + n1 + n3, s3, g3, stepN_chain (1 + n1) n3 s G s2 G s3 g3 hrun h3, hcase3⟩

/-- Every search comes to an end. -/
theorem finishes_search :
    ∀ (e : Nat) (G : Grid) (s : Solver), InRange G → emptyCount G < e → ¬ s.terminal →
      (s.stack = [] ∨ ∃ init top, s.stack = init ++ [top] ∧ G top.idx ≠ 0) → Finishes s G := by
  intro e
  induction e with
  | zero => intro G s _ he; omega
  | succ e ih =>
    intro G s hr he ht hst
    obtain ⟨f, hf, hc1, hc2, hc3⟩ := findBestEmpty_spec G hr
    cases hok : f.ok with
    | false =>
      rcases hst with hnil | ⟨init, top, hstack, htop⟩
      · exact ⟨1, _, _, stepN_of_case s G _ _ (StepCase.firstFailed f ht hnil hf hok),
          Or.inl (Or.inr rfl)⟩
      · exact ⟨1, _, _,
          stepN_of_case s G _ _ (StepCase.localBacktrack init top f ht hstack htop hf hok),
          Or.inr ⟨init, top, hstack, rfl, by simp [Solver.terminal], rfl⟩⟩
    | true =>
      cases hidx : f.idx with
      | none =>
        rcases hst with hnil | ⟨init, top, hstack, htop⟩
        · exact ⟨1, _, _, stepN_of_case s G _ _ (StepCase.firstSolved f ht hnil hf hok hidx),
            Or.inl (Or.inl rfl)⟩
        · exact ⟨1, _, _,
            stepN_of_case s G _ _ (StepCase.deepSolved init top f ht hstack htop hf hok hidx),
            Or.inl (Or.inl rfl)⟩
      | some i =>
        obtain ⟨hi0, hmask, _⟩ := hc3 hok i hidx
        have hstep : stepN 1 s G = some (pushChoose s i f.mask, G) := by
          rcases hst with hnil | ⟨init, top, hstack, htop⟩
          · exact stepN_of_case s G _ _ (StepCase.firstChoose f i ht hnil hf hok hidx)
          · exact stepN_of_case s G _ _
              (StepCase.deepChoose init top f i ht hstack htop hf hok hidx)
        have hc : ∀ d ∈ (shuffle (maskToDigits f.mask) s.rng).1, 1 ≤ d ∧ d ≤ 9 := by
          intro d hd
          rw [hmask] at hd
          have := (mem_shuffle_mask G hr i hi0 s.rng d).1 hd
          exact ⟨this.1, this.2.1⟩
        obtain ⟨n, s2, g2, h2, hcase⟩ := finishes_frame e ih G hr he s.stack i
          (shuffle (maskToDigits f.mask) s.rng).1 hi0 hc
          (shuffle (maskToDigits f.mask) s.rng).1.length 0 (by omega)
          (pushChoose s i f.mask) (by simp [Solver.terminal, pushChoose]) rfl
        refine ⟨1 + n, s2, g2, stepN_chain 1 n s G _ _ s2 g2 hstep h2, ?_⟩
        rcases hcase with hterm | ⟨init2, prev, hinit, hs2, hnt2, hg2⟩
        · exact Or.inl hterm
        · exact Or.inr ⟨init2, prev, hinit, hs2, hnt2, hg2⟩

/-! ## maskToDigits -/

theorem maskToDigits_sorted (mask : Nat) : List.Pairwise (· < ·) (maskToDigits mask) := by
  unfold maskToDigits
  apply List.Pairwise.map (R := (· < ·))
  · intro a b hab
    exact_mod_cast hab
  · exact List.Pairwise.filter _ (List.pairwise_lt_range' 1 9)

theorem maskToDigits_length (mask : Nat) :
    (maskToDigits mask).length = onesCount16 (mask &&& allMask) := by
  have hsplit : List.range 16 = [0] ++ (List.range' 1 9 ++ List.range' 10 6) := by decide
  have hbit : ∀ k, (mask &&& allMask).testBit k = (mask.testBit k && decide (1 ≤ k ∧ k ≤ 9)) := by
    intro k
    rw [Nat.testBit_and]
    congr 1
    rw [Bool.eq_iff_iff, testBit_allMask]
    simp
  unfold maskToDigits onesCount16
  rw [List.length_map, hsplit, List.filter_append, List.filter_append, List.length_append,
    List.length_append]
  have h0 : ([0].filter (fun k => (mask &&& allMask).testBit k)).length = 0 := by
    rw [List.length_eq_zero, List.filter_eq_nil_iff]
    intro k hk
    rw [hbit]
    have : k = 0 := by simpa using hk
    subst this
    simp
  have h2 : ((List.range' 10 6).filter (fun k => (mask &&& allMask).testBit k)).length = 0 := by
    rw [List.length_eq_zero, List.filter_eq_nil_iff]
    intro k hk
    rw [hbit]
    have : 10 ≤ k := by
      simp only [List.mem_range', Nat.one_mul] at hk
      obtain ⟨i, _, rfl⟩ := hk
      omega
    have hd : decide (1 ≤ k ∧ k ≤ 9) = false := by simp; omega
    rw [hd]
    simp
  have h1 : (List.range' 1 9).filter (fun k => (mask &&& allMask).testBit k) =
      (List.range' 1 9).filter (fun d => decide (mask &&& (1 <<< d) ≠ 0)) := by
    apply List.filter_congr
    intro k hk
    rw [mem_range_digits] at hk
    rw [hbit]
    have hd : decide (1 ≤ k ∧ k ≤ 9) = true := by simpa using hk
    rw [hd, Bool.and_true, Bool.eq_iff_iff]
    simp only [ne_eq, decide_eq_true_eq, and_shift_eq_zero]
    simp
  rw [h0, h2, h1]
  omega

/-! ## The scan without an assumption on the entries -/

theorem findLoop_filled (g : Grid) :
    ∀ (l : List (Fin 81)) (bi : Option (Fin 81)) (bm bc : Nat), (∀ j ∈ l, g j ≠ 0) →
      findLoop g l bi bm bc = some (findFinish bi bm) := by
  intro l
  induction l with
  | nil => intro bi bm bc _; rfl
  | cons j rest ih =>
    intro bi bm bc h
    have hj := h j (List.mem_cons_self _ _)
    unfold findLoop
    rw [if_pos hj]
    exact ih bi bm bc (fun k hk => h k (List.mem_cons_of_mem _ hk))

/-- On a grid without empty cell the scan reports Solved, whatever the entries. -/
theorem findBestEmpty_filled (g : Grid) (hfull : ∀ i, g i ≠ 0) :
    findBestEmpty g = some ⟨none, 0, true⟩ :=
  findLoop_filled g _ none 0 10 (fun j _ => hfull j)

/-- The scan of a grid whose only empty cell among those still to visit is `i`, when that
cell has at most one candidate. -/
theorem findLoop_single (g : Grid) (i : Fin 81) (m : Nat) (hi0 : g i = 0)
    (hm : candidatesMask g i = some m) (hc : onesCount16 m ≤ 1) :
    ∀ (l : List (Fin 81)) (bm : Nat), i ∈ l → (∀ j ∈ l, j ≠ i → g j ≠ 0) →
      findLoop g l none bm 10 =
        some (if onesCount16 m = 0 then ⟨none, 0, false⟩ else ⟨some i, m, true⟩) := by
  intro l
  induction l with
  | nil => intro bm hi; exact absurd hi (List.not_mem_nil i)
  | cons j rest ih =>
    intro bm hi hrest
    by_cases hji : j = i
    · subst hji
      have hne : ¬ g j ≠ 0 := by simpa using hi0
      unfold findLoop
      rw [if_neg hne]
      simp only [hm]
      by_cases hc0 : onesCount16 m = 0
      · simp [hc0]
      · have hc1 : onesCount16 m = 1 := by omega
        simp [hc1, findFinish]
    · have hj : g j ≠ 0 := hrest j (List.mem_cons_self _ _) hji
      have hi2 : i ∈ rest := by
        rcases List.mem_cons.1 hi with h | h
        · exact absurd h.symm hji
        · exact h
      unfold findLoop
      rw [if_pos hj]
      exact ih bm hi2 (fun k hk => hrest k (List.mem_cons_of_mem _ hk))

theorem findBestEmpty_single (g : Grid) (i : Fin 81) (m : Nat)
    (hempty : ∀ j, g j = 0 ↔ j = i) (hm : candidatesMask g i = some m)
    (hc : onesCount16 m ≤ 1) :
    findBestEmpty g =
      some (if onesCount16 m = 0 then ⟨none, 0, false⟩ else ⟨some i, m, true⟩) :=
  findLoop_single g i m ((hempty i).2 rfl) hm hc _ 0 (List.mem_finRange i)
    (fun j _ hji h0 => hji ((hempty j).1 h0))

/-! ## candidatesMask without an assumption on the entries -/

theorem markCell_mono (g : Grid) (u : Nat) (c : Fin 81) (u2 : Nat)
    (h : markCell g u c = some u2) :
    (∀ k, u.testBit k = true → u2.testBit k = true) ∧
      (∀ k : Nat, k < 16 → k ≠ 0 → g c = (k : Int) → u2.testBit k = true) := by
  unfold markCell at h
  by_cases h0 : g c = 0
  · simp only [h0, ne_eq, not_true_eq_false, if_false, Option.some.injEq] at h
    subst h
    refine ⟨fun k hk => hk, fun k _ hk0 hgc => ?_⟩
    rw [h0] at hgc
    exact absurd (by exact_mod_cast hgc.symm) hk0
  · rw [if_pos h0] at h
    unfold orShift at h
    split at h
    · exact absurd h (by simp)
    · simp only [Option.some.injEq] at h
      subst h
      refine ⟨fun k hk => ?_, fun k hk16 _ hgc => ?_⟩
      · rw [Nat.testBit_or, hk]; rfl
      · rw [Nat.testBit_or, Bool.or_eq_true, testBit_shiftMask]
        right
        rw [hgc]
        exact ⟨Int.toNat_ofNat k, hk16⟩

theorem foldlM_mono {α : Type} (f : Nat → α → Option Nat) (Q : α → Nat → Prop)
    (hf : ∀ u a u2, f u a = some u2 →
      (∀ k, u.testBit k = true → u2.testBit k = true) ∧ (∀ k, Q a k → u2.testBit k = true)) :
    ∀ (l : List α) (u u2 : Nat), l.foldlM f u = some u2 →
      (∀ k, u.testBit k = true → u2.testBit k = true) ∧
        (∀ k, ∀ a ∈ l, Q a k → u2.testBit k = true) := by
  intro l
  induction l with
  | nil =>
    intro u u2 h
    simp only [List.foldlM_nil, pure, Option.some.injEq] at h
    subst h
    exact ⟨fun k hk => hk, fun k a ha => absurd ha (List.not_mem_nil a)⟩
  | cons a l ih =>
    intro u u2 h
    rw [List.foldlM_cons] at h
    obtain ⟨u1, h1, h2⟩ := Option.bind_eq_some.1 h
    obtain ⟨hm1, hq1⟩ := hf u a u1 h1
    obtain ⟨hm2, hq2⟩ := ih u1 u2 h2
    refine ⟨fun k hk => hm2 k (hm1 k hk), fun k b hb hQ => ?_⟩
    rcases List.mem_cons.1 hb with hba | hba
    · subst hba; exact hm2 k (hq1 k hQ)
    · exact hq2 k b hba hQ

/-- A digit in the mask of an empty cell is in 1..9 and occurs nowhere in the row, column
or box of the cell, whatever the entries of the grid. -/
theorem candidatesMask_sound (g : Grid) (idx : Fin 81) (m : Nat) (he : g idx = 0)
    (h : candidatesMask g idx = some m) (k : Nat) (hk : m.testBit k = true) :
    1 ≤ k ∧ k ≤ 9 ∧ ¬ Occurs g idx (k : Int) := by
  unfold candidatesMask at h
  simp only [he, ne_eq, not_true_eq_false, if_false] at h
  obtain ⟨u1, h1, h⟩ := Option.bind_eq_some.1 h
  obtain ⟨u2, h2, h⟩ := Option.bind_eq_some.1 h
  simp only [Option.some.injEq] at h
  subst h
  rw [Nat.testBit_and, Bool.and_eq_true, testBit_allMask] at hk
  obtain ⟨⟨hk1, hk9⟩, hx⟩ := hk
  refine ⟨hk1, hk9, ?_⟩
  have hrc := foldlM_mono (rowColStep g ⟨idx.val / 9, by omega⟩ ⟨idx.val % 9, by omega⟩)
    (fun i k => k < 16 ∧ k ≠ 0 ∧ (g (rowCell ⟨idx.val / 9, by omega⟩ i) = (k : Int) ∨
      g (colCell ⟨idx.val % 9, by omega⟩ i) = (k : Int)))
    (by
      intro u a u3 hstep
      unfold rowColStep at hstep
      obtain ⟨u4, h4, h5⟩ := Option.bind_eq_some.1 hstep
      obtain ⟨hm4, hq4⟩ := markCell_mono g u _ u4 h4
      obtain ⟨hm5, hq5⟩ := markCell_mono g u4 _ u3 h5
      refine ⟨fun k hk => hm5 k (hm4 k hk), ?_⟩
      rintro k ⟨h16, hk0, hg | hg⟩
      · exact hm5 k (hq4 k h16 hk0 hg)
      · exact hq5 k h16 hk0 hg)
    (List.finRange 9) 0 u1 h1
  have hbx := foldlM_mono (boxRowStep g ⟨idx.val / 9, by omega⟩ ⟨idx.val % 9, by omega⟩)
    (fun dr k => k < 16 ∧ k ≠ 0 ∧ ∃ dc : Fin 3,
      g (boxCell ⟨idx.val / 9, by omega⟩ ⟨idx.val % 9, by omega⟩ dr dc) = (k : Int))
    (by
      intro u dr u3 hstep
      unfold boxRowStep at hstep
      have := foldlM_mono
        (fun u dc => markCell g u (boxCell ⟨idx.val / 9, by omega⟩ ⟨idx.val % 9, by omega⟩ dr dc))
        (fun dc k => k < 16 ∧ k ≠ 0 ∧
          g (boxCell ⟨idx.val / 9, by omega⟩ ⟨idx.val % 9, by omega⟩ dr dc) = (k : Int))
        (by
          intro u5 dc u6 h6
          obtain ⟨hm6, hq6⟩ := markCell_mono g u5 _ u6 h6
          exact ⟨hm6, fun k hQ => hq6 k hQ.1 hQ.2.1 hQ.2.2⟩)
        (List.finRange 3) u u3 hstep
      refine ⟨this.1, ?_⟩
      rintro k ⟨h16, hk0, dc, hg⟩
      exact this.2 k dc (List.mem_finRange dc) ⟨h16, hk0, hg⟩)
    (List.finRange 3) u1 u2 h2
  rintro ⟨j, hp, hj⟩
  have hused : u2.testBit k = true := by
    rcases (peer_iff_scanned idx j).1 hp with ⟨i, h | h⟩ | ⟨dr, dc, h⟩
    · subst h
      exact hbx.1 k (hrc.2 k i (List.mem_finRange i) ⟨by omega, by omega, Or.inl hj⟩)
    · subst h
      exact hbx.1 k (hrc.2 k i (List.mem_finRange i) ⟨by omega, by omega, Or.inr hj⟩)
    · subst h
      exact hbx.2 k dr (List.mem_finRange dr) ⟨by omega, by omega, dc, hj⟩
  have h16 : (65535 : Nat) = 2 ^ 16 - 1 := by norm_num
  rw [Nat.testBit_xor, h16, Nat.testBit_two_pow_sub_one, hused] at hx
  have h5 : decide (k < 16) = true := by simp; omega
  rw [h5] at hx
  simp at hx

/-! ## The first calls of step on a fresh solver -/

theorem shuffle_single (x : Int) (r : Rng) : shuffle [x] r = ([x], r) := rfl

theorem onesCount16_of_digits (m : Nat) (hsub : ∀ k, m.testBit k = true → 1 ≤ k ∧ k ≤ 9) :
    onesCount16 m = (maskToDigits m).length := by
  rw [maskToDigits_length]
  congr 1
  apply Nat.eq_of_testBit_eq
  intro k
  rw [Nat.testBit_and]
  by_cases hk : m.testBit k = true
  · rw [hk, (testBit_allMask k).2 (hsub k hk)]; rfl
  · have : m.testBit k = false := by simpa using hk
    rw [this]; rfl

/-! ## Two completions of the empty grid -/

theorem toGrid_ofGrid (h : Grid) (hd : ∀ i, 0 ≤ h i ∧ h i ≤ 9) : toGrid (ofGrid h) = h := by
  funext i
  have := hd i
  simp only [toGrid, ofGrid]
  omega

theorem two_le_solutionCount (g h1 h2 : Grid) (c1 : Completion g h1) (c2 : Completion g h2)
    (hne : h1 ≠ h2) : 2 ≤ solutionCount g := by
  have hd1 : ∀ i, 0 ≤ h1 i ∧ h1 i ≤ 9 := fun i => ⟨by have := c1.1 i; omega, (c1.1 i).2⟩
  have hd2 : ∀ i, 0 ≤ h2 i ∧ h2 i ≤ 9 := fun i => ⟨by have := c2.1 i; omega, (c2.1 i).2⟩
  unfold solutionCount
  apply Nat.succ_le_of_lt
  rw [Finset.one_lt_card]
  refine ⟨ofGrid h1, (mem_completions g _).2 (by rw [toGrid_ofGrid h1 hd1]; exact c1),
    ofGrid h2, (mem_completions g _).2 (by rw [toGrid_ofGrid h2 hd2]; exact c2), ?_⟩
  intro heq
  apply hne
  rw [← toGrid_ofGrid h1 hd1, ← toGrid_ofGrid h2 hd2, heq]

theorem digits_solvedGrid : ∀ i, 1 ≤ solvedGrid i ∧ solvedGrid i ≤ 9 := by decide

theorem validGrid_solvedGrid2 : ValidGrid solvedGrid2 := by
  intro a b hab hp _
  have h1 := digits_solvedGrid a
  have h2 := digits_solvedGrid b
  have h3 := validGrid_solvedGrid a b hab hp (by omega)
  simp only [solvedGrid2]
  omega

theorem completion_of_empty (g h : Grid) (hg : ∀ i, g i = 0) (hd : ∀ i, 1 ≤ h i ∧ h i ≤ 9)
    (hv : ValidGrid h) : Completion g h :=
  ⟨hd, fun i hi => absurd (hg i) hi, hv⟩

theorem two_le_of_empty (g : Grid) (hg : ∀ i, g i = 0) : 2 ≤ solutionCount g := by
  apply two_le_solutionCount g solvedGrid solvedGrid2
  · exact completion_of_empty g solvedGrid hg digits_solvedGrid validGrid_solvedGrid
  · refine completion_of_empty g solvedGrid2 hg (fun i => ?_) validGrid_solvedGrid2
    have := digits_solvedGrid i
    simp only [solvedGrid2]
    omega
  · intro heq
    have := congrFun heq 0
    revert this
    decide

theorem inRange_oneClueGrid : InRange oneClueGrid :=
  inRange_setCell emptyGrid inRange_emptyGrid 0 1 (by decide) (by decide)

theorem validGrid_oneClueGrid : ValidGrid oneClueGrid :=
  validGrid_setCell emptyGrid validGrid_emptyGrid 0 1 (by
    rintro ⟨j, _, hj⟩
    simp [emptyGrid] at hj)

theorem two_le_oneClueGrid : 2 ≤ solutionCount (setCell oneClueGrid 0 0) := by
  apply two_le_of_empty
  intro i
  unfold oneClueGrid
  rw [setCell_setCell]
  by_cases h : i = 0
  · subst h; exact setCell_same _ _ _
  · rw [setCell_other _ _ _ _ h]; rfl

theorem reset_not_terminal (s : Solver) (rng : Rng) : ¬ (s.Reset rng).terminal := by
  simp [Solver.terminal, Solver.Reset]

/-! ## Claims on candidatesMask and findBestEmpty -/

/-- C1: on a grid with entries in 0..9 and an empty cell `idx`, `candidatesMask` returns a
mask whose bit `d` is set exactly for the digits `d` in 1..9 that occur nowhere in the row,
column or box of the cell; in particular no bit outside 1..9 is set. -/
theorem C1_candidatesMask_bits (g : Grid) (idx : Fin 81) (hr : InRange g) (he : g idx = 0) :
    ∃ m, candidatesMask g idx = some m ∧
      ∀ d : Nat, m.testBit d = true ↔ (1 ≤ d ∧ d ≤ 9 ∧ ¬ Occurs g idx (d : Int)) :=
  candidatesMask_bits g hr idx he

theorem C1_witness :
    InRange deadGrid ∧ deadGrid 0 = 0 ∧
    ∃ m, candidatesMask deadGrid 0 = some m ∧
      ∀ d : Nat, m.testBit d = true ↔ (1 ≤ d ∧ d ≤ 9 ∧ ¬ Occurs deadGrid 0 (d : Int)) :=
  ⟨by decide, by decide, C1_candidatesMask_bits deadGrid 0 (by decide) (by decide)⟩

/-- C2, as stated, fails: cell 80 of `deadGrid` is empty, yet its mask is 0, because every
digit 1..9 already occurs in its row or column. -/
theorem C2_counterexample :
    InRange deadGrid ∧ ¬ (candidatesMask deadGrid 80 = some 0 ↔ deadGrid 80 ≠ 0) := by
  decide

/-- C2 (amended): on a grid with entries in 0..9, `candidatesMask` returns 0 if and only if
the cell is filled or every digit 1..9 occurs in the row, column or box of the cell. -/
theorem C2_candidatesMask_zero_iff (g : Grid) (idx : Fin 81) (hr : InRange g) :
    ∃ m, candidatesMask g idx = some m ∧
      (m = 0 ↔ (g idx ≠ 0 ∨ ∀ d : Nat, 1 ≤ d → d ≤ 9 → Occurs g idx (d : Int))) := by
  by_cases h : g idx = 0
  · obtain ⟨m, hm, hb⟩ := candidatesMask_bits g hr idx h
    refine ⟨m, hm, ?_⟩
    constructor
    · intro h0
      right
      intro d h1 h9
      by_contra hocc
      have := (hb d).2 ⟨h1, h9, hocc⟩
      rw [h0] at this
      simp at this
    · rintro (h1 | h1)
      · exact absurd h h1
      · apply Nat.zero_of_testBit_eq_false
        intro d
        rw [← Bool.not_eq_true]
        intro hd
        obtain ⟨h1d, h9d, hno⟩ := (hb d).1 hd
        exact hno (h1 d h1d h9d)
  · exact ⟨0, candidatesMask_filled g idx h, by simp [h]⟩

theorem C2_witness :
    InRange deadGrid ∧
    ∃ m, candidatesMask deadGrid 80 = some m ∧
      (m = 0 ↔ (deadGrid 80 ≠ 0 ∨ ∀ d : Nat, 1 ≤ d → d ≤ 9 → Occurs deadGrid 80 (d : Int))) :=
  ⟨by decide, C2_candidatesMask_zero_iff deadGrid 80 (by decide)⟩

/-- C3, as stated, fails: in `deadGrid` the empty cell 80 has an empty mask, but the scan
stops at cell 0, which has exactly one candidate, and selects it. -/
theorem C3_counterexample :
    InRange deadGrid ∧ deadGrid 80 = 0 ∧ candidatesMask deadGrid 80 = some 0 ∧
      findBestEmpty deadGrid = some ⟨some 0, 2, true⟩ := by
  decide

/-- C3 (amended): on a grid with entries in 0..9, if some empty cell has an empty candidate
mask and no empty cell of smaller index has exactly one candidate, `findBestEmpty` returns
Contradiction: `(-1, 0, false)`. -/
theorem C3_findBestEmpty_contradiction (g : Grid) (hr : InRange g) (i : Fin 81)
    (hi0 : g i = 0) (hm : candidatesMask g i = some 0)
    (hno : ∀ j, j < i → g j = 0 → candCount g j ≠ 1) :
    findBestEmpty g = some ⟨none, 0, false⟩ := by
  obtain ⟨r, hr1, hf, hs, hc⟩ := findBestEmpty_spec g hr
  have hci : candCount g i = 0 := by simp [candCount, maskOf, hm, onesCount16]
  rw [hr1]
  obtain ⟨ridx, rmask, rok⟩ := r
  cases rok with
  | false =>
    obtain ⟨h1, h2, _⟩ := hf rfl
    simp only at h1 h2
    subst h1 h2
    rfl
  | true =>
    exfalso
    cases ridx with
    | none => exact (hs rfl rfl).2 i hi0
    | some k =>
      obtain ⟨hk0, _, hk1, hfirst, hmin⟩ := hc rfl k rfl
      rcases lt_trichotomy k i with h | h | h
      · rcases hmin with h1 | h1
        · exact hno k h hk0 h1
        · have := h1 i hi0; omega
      · subst h; omega
      · have := hfirst i h hi0; omega

theorem C3_witness :
    InRange deadGrid1 ∧ deadGrid1 80 = 0 ∧ candidatesMask deadGrid1 80 = some 0 ∧
    (∀ j, j < 80 → deadGrid1 j = 0 → candCount deadGrid1 j ≠ 1) ∧
    findBestEmpty deadGrid1 = some ⟨none, 0, false⟩ :=
  ⟨by decide, by decide, by decide, by decide,
    C3_findBestEmpty_contradiction deadGrid1 (by decide) 80 (by decide) (by decide) (by decide)⟩

/-- C4: on a grid with entries in 0..9, when `findBestEmpty` returns a selected cell
(`ok = true`, `idx != -1`): the cell is empty, the returned mask is `candidatesMask` of that
cell and is non-empty, no empty cell has a strictly smaller positive candidate count, and no
empty cell of smaller index has the same candidate count. -/
theorem C4_findBestEmpty_selected (g : Grid) (hr : InRange g) (r : Found) (i : Fin 81)
    (h : findBestEmpty g = some r) (hok : r.ok = true) (hidx : r.idx = some i) :
    g i = 0 ∧ candidatesMask g i = some r.mask ∧ r.mask ≠ 0 ∧
      candCount g i = onesCount16 r.mask ∧
      (∀ j, g j = 0 → 1 ≤ candCount g j → candCount g i ≤ candCount g j) ∧
      (∀ j, j < i → g j = 0 → candCount g j ≠ candCount g i) := by
  obtain ⟨r2, hr1, _, _, hc⟩ := findBestEmpty_spec g hr
  rw [h] at hr1
  have hrr : r = r2 := by simpa using hr1
  subst hrr
  obtain ⟨h0, hm, h1, hfirst, hmin⟩ := hc hok i hidx
  refine ⟨h0, ?_, ?_, ?_, ?_, ?_⟩
  · rw [hm]; exact (maskOf_bits g hr i h0).1
  · intro hz
    rw [hm] at hz
    have : candCount g i = 0 := by simp [candCount, hz, onesCount16]
    omega
  · rw [hm]; rfl
  · intro j hj0 hj1
    rcases hmin with h2 | h2
    · omega
    · exact h2 j hj0
  · intro j hj hj0 heq
    have := hfirst j hj hj0
    omega

theorem C4_witness :
    InRange deadGrid ∧ findBestEmpty deadGrid = some ⟨some 0, 2, true⟩ ∧
    (deadGrid 0 = 0 ∧ candidatesMask deadGrid 0 = some 2 ∧ (2 : Nat) ≠ 0 ∧
      candCount deadGrid 0 = onesCount16 2 ∧
      (∀ j, deadGrid j = 0 → 1 ≤ candCount deadGrid j →
        candCount deadGrid 0 ≤ candCount deadGrid j) ∧
      (∀ j, j < 0 → deadGrid j = 0 → candCount deadGrid j ≠ candCount deadGrid 0)) :=
  ⟨by decide, by decide,
    C4_findBestEmpty_selected deadGrid (by decide) ⟨some 0, 2, true⟩ 0 (by decide) rfl rfl⟩

/-! ## Claims on the clue-removal loop and the terminal guard -/

theorem inRange_of_full (full : Grid) (hfull : ∀ i, 1 ≤ full i ∧ full i ≤ 9) : InRange full :=
  fun i => ⟨by have := hfull i; omega, (hfull i).2⟩

theorem clueCount_full (full : Grid) (hfull : ∀ i, 1 ≤ full i ∧ full i ≤ 9) :
    clueCount full = 81 := by
  unfold clueCount
  have : Finset.univ.filter (fun i => full i ≠ 0) = (Finset.univ : Finset (Fin 81)) := by
    apply Finset.filter_true_of_mem
    intro i _
    have := hfull i
    omega
  rw [this]
  simp

/-- C7: for every completely filled grid (digits 1..9 in all 81 cells), every sequence of
positions (in particular every permutation of the 81 indices) and every target clue count,
the clue-removal loop of `newPuzzle` produces a puzzle, and `countSolutions(puzzle, 2)` is 1
on it. -/
theorem C7_carve_unique (full : Grid) (hfull : ∀ i, 1 ≤ full i ∧ full i ≤ 9)
    (perm : List (Fin 81)) (target : Int) :
    ∃ puz, carve full perm target = some puz ∧ countSolutions puz 2 = some 1 := by
  have hr := inRange_of_full full hfull
  have h1 : countSolutions full 2 = some 1 :=
    countSolutions_full full hr (fun i => by have := hfull i; omega) 2
  obtain ⟨puz, clues, h2, _, h4, _⟩ := carveLoop_spec target perm full 81 hr h1
  exact ⟨puz, by simp [carve, h2], h4⟩

theorem C7_witness :
    (∀ i, 1 ≤ solvedGrid i ∧ solvedGrid i ≤ 9) ∧
    ∃ puz, carve solvedGrid (List.finRange 81) 24 = some puz ∧
      countSolutions puz 2 = some 1 :=
  ⟨by decide, C7_carve_unique solvedGrid (by decide) (List.finRange 81) 24⟩

/-- C8: for every completely filled grid (81 clues), every sequence of positions (in
particular every permutation of the 81 indices) and every target `t <= 81` (in particular
`0 <= t <= 81`),
the puzzle produced by the clue-removal loop of `newPuzzle` has at least `t` non-zero
cells. -/
theorem C8_carve_clues (full : Grid) (hfull : ∀ i, 1 ≤ full i ∧ full i ≤ 9)
    (perm : List (Fin 81)) (t : Int) (ht : t ≤ 81) :
    ∃ puz, carve full perm t = some puz ∧ t ≤ (clueCount puz : Int) := by
  have hr := inRange_of_full full hfull
  have h1 : countSolutions full 2 = some 1 :=
    countSolutions_full full hr (fun i => by have := hfull i; omega) 2
  obtain ⟨puz, clues, h2, _, _, h5⟩ := carveLoop_spec t perm full 81 hr h1
  refine ⟨puz, by simp [carve, h2], ?_⟩
  have h6 := h5 (by rw [clueCount_full full hfull]; norm_num)
  rw [min_eq_left ht] at h6
  omega

theorem C8_witness :
    (∀ i, 1 ≤ solvedGrid i ∧ solvedGrid i ≤ 9) ∧ (24 : Int) ≤ 81 ∧
    ∃ puz, carve solvedGrid (List.finRange 81) 24 = some puz ∧ (24 : Int) ≤ (clueCount puz : Int) :=
  ⟨by decide, by decide,
    C8_carve_clues solvedGrid (by decide) (List.finRange 81) 24 (by decide)⟩

/-- C9: when the last action of the solver has kind Solved or Failed, `step` returns with
the solver (last action, stack, step counter and every other field) and the grid
unchanged. -/
theorem C9_step_terminal (s : Solver) (g : Grid)
    (h : s.last.Kind = ActionKind.ActionSolved ∨ s.last.Kind = ActionKind.ActionFailed) :
    step s g = some (s, g) := by
  simp [step, h]

theorem C9_witness :
    (({ freshSolver zeroRng with last := ⟨ActionKind.ActionFailed, -1, 0, 0, 0⟩ } : Solver).last.Kind
        = ActionKind.ActionSolved ∨
      ({ freshSolver zeroRng with last := ⟨ActionKind.ActionFailed, -1, 0, 0, 0⟩ } : Solver).last.Kind
        = ActionKind.ActionFailed) ∧
    step { freshSolver zeroRng with last := ⟨ActionKind.ActionFailed, -1, 0, 0, 0⟩ } deadGrid =
      some ({ freshSolver zeroRng with last := ⟨ActionKind.ActionFailed, -1, 0, 0, 0⟩ }, deadGrid) :=
  ⟨Or.inr rfl, C9_step_terminal _ deadGrid (Or.inr rfl)⟩

/-! ## Claim on fillRandom -/

/-- C6: for every random source, `fillRandom` started on the all-empty grid returns, and if
it returns true the resulting grid has no empty cell and every row, every column and every
3x3 box is exactly the set {1..9}. -/
theorem C6_fillRandom_full (rng : Rng) :
    ∃ b g2 rng2, generateFull rng = some (b, g2, rng2) ∧
      (b = true → (∀ i, g2 i ≠ 0) ∧ (∀ r, rowSet g2 r = digitSet) ∧
        (∀ c, colSet g2 c = digitSet) ∧ (∀ br bc, boxSet g2 br bc = digitSet)) := by
  obtain ⟨b, g2, r2, hcall, _, hpt⟩ := fillRandom_spec 82 emptyGrid rng inRange_emptyGrid
    validGrid_emptyGrid (by have := emptyCount_le emptyGrid; omega)
  refine ⟨b, g2, r2, hcall, fun hb => ?_⟩
  obtain ⟨hd, _, hv⟩ := hpt hb
  exact ⟨fun i => by have := hd i; omega, complete_units g2 hd hv⟩

/-! ## Claim on countSolutions -/

/-- C5: for every grid with entries in 0..9 that satisfies the Grid invariant and every
limit >= 1, with `K` the number of distinct valid completions of the grid,
`countSolutions(grid, limit)` returns `K` when `K < limit`, and a number that is at least
`limit` and at most `K` when `K >= limit`; with `limit = 2` the result is 1 exactly when
the grid has exactly one completion. -/
theorem C5_countSolutions_bounded (g : Grid) (limit : Int) (hr : InRange g) (hv : ValidGrid g)
    (hl : 1 ≤ limit) :
    ∃ r, countSolutions g limit = some r ∧
      ((solutionCount g : Int) < limit → r = solutionCount g) ∧
      (limit ≤ (solutionCount g : Int) → limit ≤ r ∧ r ≤ solutionCount g) ∧
      (limit = 2 → (r = 1 ↔ solutionCount g = 1)) := by
  obtain ⟨r, hcall, hq1, hq2⟩ := countRec_spec limit hl 82 g hr hv
    (by have := emptyCount_le g; omega)
  refine ⟨r, by simp [countSolutions, hcall], hq1, hq2, ?_⟩
  rintro rfl
  by_cases hk : (solutionCount g : Int) < 2
  · have := hq1 hk; omega
  · have := hq2 (by omega); omega

theorem C5_witness :
    InRange emptyGrid ∧ ValidGrid emptyGrid ∧ (1 : Int) ≤ 2 ∧
    ∃ r, countSolutions emptyGrid 2 = some r ∧
      ((solutionCount emptyGrid : Int) < 2 → r = solutionCount emptyGrid) ∧
      ((2 : Int) ≤ (solutionCount emptyGrid : Int) → 2 ≤ r ∧ r ≤ solutionCount emptyGrid) ∧
      ((2 : Int) = 2 → (r = 1 ↔ solutionCount emptyGrid = 1)) :=
  ⟨inRange_emptyGrid, validGrid_emptyGrid, by decide,
    C5_countSolutions_bounded emptyGrid 2 inRange_emptyGrid validGrid_emptyGrid (by decide)⟩

/-! ## Claim on the Failed action -/

/-- C10: for every grid `g0` with entries in 0..9, every solver, every random source and
every `n`: the `n` calls of `step` after a `Reset`, each on the grid left by the previous
one, all return, and if the last action is then Failed, `g0` has no valid completion. -/
theorem C10_failed_no_completion (g0 : Grid) (hr0 : InRange g0) (s : Solver) (rng : Rng)
    (n : Nat) :
    ∃ s2 grid2, stepN n (s.Reset rng) g0 = some (s2, grid2) ∧
      (s2.last.Kind = ActionKind.ActionFailed → ¬ ∃ h, Completion g0 h) := by
  obtain ⟨s2, g2, h1, h2⟩ := stepN_inv g0 hr0 (s.Reset rng) (stateInv_reset g0 s rng) n
  exact ⟨s2, g2, h1, fun hf => (h2.1 hf).1⟩

theorem C10_witness :
    InRange deadGrid1 ∧
    ∃ s2 grid2, stepN 1 ((freshSolver zeroRng).Reset zeroRng) deadGrid1 = some (s2, grid2) ∧
      (s2.last.Kind = ActionKind.ActionFailed → ¬ ∃ h, Completion deadGrid1 h) :=
  ⟨by decide, C10_failed_no_completion deadGrid1 (by decide) (freshSolver zeroRng) zeroRng 1⟩

/-! ## Claims on the runs of the stepwise solver -/

/-- C11: for every grid `g0` with entries in 0..9 that satisfies the Grid invariant, every
solver, every random source and every `n`: the `n` calls of `step` after a `Reset` all
return, and if the last action is then Solved, the grid has no empty cell, every row,
column and 3x3 box is exactly {1..9}, and the grid agrees with `g0` on every cell that is
non-zero in `g0`. -/
theorem C11_solved_is_solution (g0 : Grid) (hr0 : InRange g0) (hv0 : ValidGrid g0)
    (s : Solver) (rng : Rng) (n : Nat) :
    ∃ s2 g2, stepN n (s.Reset rng) g0 = some (s2, g2) ∧
      (s2.last.Kind = ActionKind.ActionSolved →
        (∀ i, g2 i ≠ 0) ∧ (∀ r, rowSet g2 r = digitSet) ∧ (∀ c, colSet g2 c = digitSet) ∧
        (∀ br bc, boxSet g2 br bc = digitSet) ∧ ∀ i, g0 i ≠ 0 → g2 i = g0 i) := by
  obtain ⟨s2, g2, h, _, hr, hv, hfull⟩ := gridInv_stepN g0 hr0 hv0 s rng n
  refine ⟨s2, g2, h, fun hk => ?_⟩
  have hf := hfull hk
  have hd : ∀ i, 1 ≤ g2 i ∧ g2 i ≤ 9 := fun i => by
    have := hr i; have := hf i; omega
  obtain ⟨h1, h2, h3⟩ := complete_units g2 hd hv
  exact ⟨hf, h1, h2, h3, (frameInv_stepN g0 _ (frameInv_reset g0 s rng) n s2 g2 h).1⟩

theorem C11_witness :
    InRange solvedGrid ∧ ValidGrid solvedGrid ∧
    ∃ s2 g2, stepN 1 ((freshSolver zeroRng).Reset zeroRng) solvedGrid = some (s2, g2) ∧
      (s2.last.Kind = ActionKind.ActionSolved →
        (∀ i, g2 i ≠ 0) ∧ (∀ r, rowSet g2 r = digitSet) ∧ (∀ c, colSet g2 c = digitSet) ∧
        (∀ br bc, boxSet g2 br bc = digitSet) ∧ ∀ i, solvedGrid i ≠ 0 → g2 i = solvedGrid i) :=
  ⟨by decide, validGrid_solvedGrid,
    C11_solved_is_solution solvedGrid (by decide) validGrid_solvedGrid (freshSolver zeroRng)
      zeroRng 1⟩

/-- C16: for every grid `g0` with entries in 0..9 that satisfies the Grid invariant, every
solver, every random source and every `n`: the `n` calls of `step` after a `Reset` all
return, and the grid they leave has entries in 0..9 and satisfies the Grid invariant. -/
theorem C16_grid_stays_valid (g0 : Grid) (hr0 : InRange g0) (hv0 : ValidGrid g0)
    (s : Solver) (rng : Rng) (n : Nat) :
    ∃ s2 g2, stepN n (s.Reset rng) g0 = some (s2, g2) ∧ InRange g2 ∧ ValidGrid g2 := by
  obtain ⟨s2, g2, h, _, hr, hv, _⟩ := gridInv_stepN g0 hr0 hv0 s rng n
  exact ⟨s2, g2, h, hr, hv⟩

theorem C16_witness :
    InRange emptyGrid ∧ ValidGrid emptyGrid ∧
    ∃ s2 g2, stepN 200 ((freshSolver zeroRng).Reset zeroRng) emptyGrid = some (s2, g2) ∧
      InRange g2 ∧ ValidGrid g2 :=
  ⟨inRange_emptyGrid, validGrid_emptyGrid,
    C16_grid_stays_valid emptyGrid inRange_emptyGrid validGrid_emptyGrid (freshSolver zeroRng)
      zeroRng 200⟩

/-- C17: whenever a call of `step`, on any solver state and grid (in particular on a state
reached from a `Reset` by `step` calls), leaves an action of kind Choose, Try or Backtrack,
the stack after the call is non-empty, the action's Depth is the length of that stack and
the action's Idx is the cell of its top frame. -/
theorem C17_action_matches_stack (s : Solver) (grid : Grid) (s2 : Solver) (g2 : Grid)
    (h : step s grid = some (s2, g2))
    (hk : s2.last.Kind = ActionKind.ActionChoose ∨ s2.last.Kind = ActionKind.ActionTry ∨
      s2.last.Kind = ActionKind.ActionBacktrack) :
    s2.stack ≠ [] ∧ s2.last.Depth = (s2.stack.length : Int) ∧
      ∃ top, s2.stack.getLast? = some top ∧ s2.last.Idx = (top.idx.val : Int) := by
  cases step_cases s grid s2 g2 h with
  | terminal ht =>
    unfold Solver.terminal at ht
    rcases ht with ht | ht <;> rw [ht] at hk <;> simp at hk
  | firstFailed r _ _ _ _ => simp at hk
  | firstSolved r _ _ _ _ _ => simp at hk
  | firstChoose r i _ _ _ _ _ =>
    exact ⟨by simp [pushChoose], rfl, _, List.getLast?_concat _, rfl⟩
  | popFailed top _ _ _ _ => simp at hk
  | popBacktrack init prev top _ _ _ _ =>
    exact ⟨by simp, rfl, prev, List.getLast?_concat _, rfl⟩
  | tryNext init top _ hstack _ _ =>
    refine ⟨by simp, ?_, _, List.getLast?_concat _, rfl⟩
    simp [hstack]
  | localBacktrack init top r _ hstack _ _ _ =>
    refine ⟨by simp [hstack], rfl, top, ?_, rfl⟩
    simp only [hstack]
    exact List.getLast?_concat _
  | deepSolved init top r _ _ _ _ _ _ => simp at hk
  | deepChoose init top r i _ _ _ _ _ _ =>
    exact ⟨by simp [pushChoose], rfl, _, List.getLast?_concat _, rfl⟩

theorem C17_witness :
    step ((freshSolver zeroRng).Reset zeroRng) deadGrid =
      some (pushChoose ((freshSolver zeroRng).Reset zeroRng) 0 2, deadGrid) ∧
    ((pushChoose ((freshSolver zeroRng).Reset zeroRng) 0 2).last.Kind = ActionKind.ActionChoose ∨
      (pushChoose ((freshSolver zeroRng).Reset zeroRng) 0 2).last.Kind = ActionKind.ActionTry ∨
      (pushChoose ((freshSolver zeroRng).Reset zeroRng) 0 2).last.Kind
        = ActionKind.ActionBacktrack) ∧
    ((pushChoose ((freshSolver zeroRng).Reset zeroRng) 0 2).stack ≠ [] ∧
      (pushChoose ((freshSolver zeroRng).Reset zeroRng) 0 2).last.Depth =
        ((pushChoose ((freshSolver zeroRng).Reset zeroRng) 0 2).stack.length : Int) ∧
      ∃ top, (pushChoose ((freshSolver zeroRng).Reset zeroRng) 0 2).stack.getLast? = some top ∧
        (pushChoose ((freshSolver zeroRng).Reset zeroRng) 0 2).last.Idx = (top.idx.val : Int)) :=
  ⟨step_reset_deadGrid, Or.inl rfl,
    C17_action_matches_stack _ deadGrid _ deadGrid step_reset_deadGrid (Or.inl rfl)⟩

/-- C19: for every initial grid `g0`, every solver, every random source and every `n`:
after `n` calls of `step` following a `Reset`, every cell that is non-zero in `g0` holds
its original value, and every frame on the stack is for a cell that is empty in `g0`. -/
theorem C19_clues_untouched (g0 : Grid) (s : Solver) (rng : Rng) (n : Nat) (s2 : Solver)
    (g2 : Grid) (h : stepN n (s.Reset rng) g0 = some (s2, g2)) :
    (∀ i, g0 i ≠ 0 → g2 i = g0 i) ∧ ∀ f ∈ s2.stack, g0 f.idx = 0 :=
  frameInv_stepN g0 _ (frameInv_reset g0 s rng) n s2 g2 h

theorem C19_witness :
    stepN 1 ((freshSolver zeroRng).Reset zeroRng) deadGrid =
      some (pushChoose ((freshSolver zeroRng).Reset zeroRng) 0 2, deadGrid) ∧
    ((∀ i, deadGrid i ≠ 0 → deadGrid i = deadGrid i) ∧
      ∀ f ∈ (pushChoose ((freshSolver zeroRng).Reset zeroRng) 0 2).stack, deadGrid f.idx = 0) :=
  ⟨(stepN_one _ _).trans step_reset_deadGrid,
    C19_clues_untouched deadGrid (freshSolver zeroRng) zeroRng 1 _ deadGrid
      ((stepN_one _ _).trans step_reset_deadGrid)⟩

/-- C20: for every grid `g0` with entries in 0..9, every solver, every random source and
every `n`: the `n` calls of `step` after a `Reset` all return, and if the last action is
then Failed, the search stack is empty and the grid equals `g0`. -/
theorem C20_failed_restores (g0 : Grid) (hr0 : InRange g0) (s : Solver) (rng : Rng)
    (n : Nat) :
    ∃ s2 g2, stepN n (s.Reset rng) g0 = some (s2, g2) ∧
      (s2.last.Kind = ActionKind.ActionFailed → s2.stack = [] ∧ g2 = g0) := by
  obtain ⟨s2, g2, h1, h2⟩ := stepN_inv g0 hr0 (s.Reset rng) (stateInv_reset g0 s rng) n
  exact ⟨s2, g2, h1, fun hf => (h2.1 hf).2⟩

theorem C20_witness :
    InRange deadGrid1 ∧
    ∃ s2 g2, stepN 1 ((freshSolver zeroRng).Reset zeroRng) deadGrid1 = some (s2, g2) ∧
      (s2.last.Kind = ActionKind.ActionFailed → s2.stack = [] ∧ g2 = deadGrid1) :=
  ⟨by decide, C20_failed_restores deadGrid1 (by decide) (freshSolver zeroRng) zeroRng 1⟩

/-! ## Claim on termination -/

/-- C18: for every grid with entries in 0..9, every solver and every random source,
repeated calls of `step` after a `Reset` reach a terminal action after finitely many
calls: there is an `n` such that the `n` calls return and leave the last action Solved or
Failed. -/
theorem C18_search_terminates (g0 : Grid) (hr0 : InRange g0) (s : Solver) (rng : Rng) :
    ∃ n s2 g2, stepN n (s.Reset rng) g0 = some (s2, g2) ∧
      (s2.last.Kind = ActionKind.ActionSolved ∨ s2.last.Kind = ActionKind.ActionFailed) := by
  obtain ⟨n, s2, g2, h, hcase⟩ := finishes_search 82 g0 (s.Reset rng) hr0
    (by have := emptyCount_le g0; omega) (by simp [Solver.terminal, Solver.Reset])
    (Or.inl rfl)
  refine ⟨n, s2, g2, h, ?_⟩
  rcases hcase with hterm | ⟨init, top, hst, _⟩
  · exact hterm
  · simp [Solver.Reset] at hst

theorem C18_witness :
    InRange deadGrid ∧
    ∃ n s2 g2, stepN n ((freshSolver zeroRng).Reset zeroRng) deadGrid = some (s2, g2) ∧
      (s2.last.Kind = ActionKind.ActionSolved ∨ s2.last.Kind = ActionKind.ActionFailed) :=
  ⟨by decide, C18_search_terminates deadGrid (by decide) (freshSolver zeroRng) zeroRng⟩

/-! ## Claim on maskToDigits -/

/-- C15: for every mask, `maskToDigits(mask)` is strictly ascending, contains exactly the
digits `d` in 1..9 whose bit `d` is set in the mask, and its length is the popcount of the
mask restricted to bits 1..9 (bits 0 and 10 and above are ignored). -/
theorem C15_maskToDigits_spec (mask : Nat) :
    List.Pairwise (· < ·) (maskToDigits mask) ∧
    (∀ d : Int, d ∈ maskToDigits mask ↔
      ∃ k : Nat, 1 ≤ k ∧ k ≤ 9 ∧ mask.testBit k = true ∧ d = (k : Int)) ∧
    (maskToDigits mask).length = onesCount16 (mask &&& allMask) :=
  ⟨maskToDigits_sorted mask, mem_maskToDigits mask, maskToDigits_length mask⟩

/-! ## Claims on the first calls of step and on one carving iteration -/

/-- C12: for every grid whose only empty cell is `i`, with `candidatesMask` of that cell
holding exactly the digit `d`, and every solver after a `Reset`: the first `step` leaves
Choose (Idx = i, CandCount = 1, Depth = 1) and the grid unchanged; the second leaves Try
(Idx = i, Value = d) and writes `d` into cell `i`, after which the grid has no empty cell
(and satisfies the Grid invariant if it did before); the third leaves Solved. -/
theorem C12_single_cell_scenario (g : Grid) (i : Fin 81) (m : Nat) (d : Int)
    (hempty : ∀ j, g j = 0 ↔ j = i) (hm : candidatesMask g i = some m)
    (hdig : maskToDigits m = [d]) (s : Solver) (rng : Rng) :
    ∃ s1 s2 s3,
      step (s.Reset rng) g = some (s1, g) ∧
      s1.last = ⟨ActionKind.ActionChoose, (i.val : Int), 0, 1, 1⟩ ∧
      step s1 g = some (s2, setCell g i d) ∧
      s2.last = ⟨ActionKind.ActionTry, (i.val : Int), d, 0, 1⟩ ∧
      (∀ j, setCell g i d j ≠ 0) ∧ (ValidGrid g → ValidGrid (setCell g i d)) ∧
      step s2 (setCell g i d) = some (s3, setCell g i d) ∧
      s3.last = ⟨ActionKind.ActionSolved, -1, 0, 0, 0⟩ := by
  have hi0 : g i = 0 := (hempty i).2 rfl
  have hsub : ∀ k, m.testBit k = true → 1 ≤ k ∧ k ≤ 9 := fun k hk =>
    ⟨(candidatesMask_sound g i m hi0 hm k hk).1, (candidatesMask_sound g i m hi0 hm k hk).2.1⟩
  have hcount : onesCount16 m = 1 := by
    rw [onesCount16_of_digits m hsub, hdig]; rfl
  obtain ⟨k, hk1, hk9, hkb, hdk⟩ := (mem_maskToDigits m d).1 (by rw [hdig]; simp)
  have hd0 : d ≠ 0 := by omega
  have hno : ¬ Occurs g i d := by
    rw [hdk]; exact (candidatesMask_sound g i m hi0 hm k hkb).2.2
  have hfind : findBestEmpty g = some ⟨some i, m, true⟩ := by
    rw [findBestEmpty_single g i m hempty hm (by omega)]
    simp [hcount]
  have hfull : ∀ j, setCell g i d j ≠ 0 := by
    intro j
    by_cases hji : j = i
    · subst hji; rw [setCell_same]; exact hd0
    · rw [setCell_other g i j d hji]
      exact fun h0 => hji ((hempty j).1 h0)
  have hstep1 := step_of_case (s.Reset rng) g _ _
    (StepCase.firstChoose ⟨some i, m, true⟩ i (reset_not_terminal s rng) rfl hfind rfl rfl)
  have hpush : pushChoose (s.Reset rng) i m =
      { s.Reset rng with stack := [] ++ [⟨i, [d], 0⟩], rng := rng,
                         last := ⟨ActionKind.ActionChoose, (i.val : Int), 0, 1, 1⟩ } := by
    simp [pushChoose, hdig, shuffle_single, Solver.Reset]
  simp only at hstep1
  rw [hpush] at hstep1
  have hstep2 := step_of_case
    ({ s.Reset rng with stack := [] ++ [⟨i, [d], 0⟩], rng := rng,
                        last := ⟨ActionKind.ActionChoose, (i.val : Int), 0, 1, 1⟩ } : Solver)
    g _ _
    (StepCase.tryNext [] ⟨i, [d], 0⟩ (by simp [Solver.terminal]) rfl hi0 (by simp))
  have hstep3 := step_of_case
    ({ s.Reset rng with stack := [] ++ [⟨i, [d], 0 + 1⟩], rng := rng, steps := (s.Reset rng).steps + 1,
                        last := ⟨ActionKind.ActionTry, (i.val : Int), d, 0, 1⟩ } : Solver)
    (setCell g i d) _ _
    (StepCase.deepSolved [] ⟨i, [d], 0 + 1⟩ ⟨none, 0, true⟩ (by simp [Solver.terminal]) rfl
      (hfull i) (findBestEmpty_filled _ hfull) rfl rfl)
  exact ⟨_, _, _, hstep1, rfl, hstep2, rfl, hfull,
    fun hv => validGrid_setCell g hv i d hno, hstep3, rfl⟩

theorem C12_witness :
    (∀ j, oneLeftGrid j = 0 ↔ j = 0) ∧ candidatesMask oneLeftGrid 0 = some 2 ∧
    maskToDigits 2 = [1] ∧
    ∃ s1 s2 s3,
      step ((freshSolver zeroRng).Reset zeroRng) oneLeftGrid = some (s1, oneLeftGrid) ∧
      s1.last = ⟨ActionKind.ActionChoose, ((0 : Fin 81).val : Int), 0, 1, 1⟩ ∧
      step s1 oneLeftGrid = some (s2, setCell oneLeftGrid 0 1) ∧
      s2.last = ⟨ActionKind.ActionTry, ((0 : Fin 81).val : Int), 1, 0, 1⟩ ∧
      (∀ j, setCell oneLeftGrid 0 1 j ≠ 0) ∧
      (ValidGrid oneLeftGrid → ValidGrid (setCell oneLeftGrid 0 1)) ∧
      step s2 (setCell oneLeftGrid 0 1) = some (s3, setCell oneLeftGrid 0 1) ∧
      s3.last = ⟨ActionKind.ActionSolved, -1, 0, 0, 0⟩ :=
  ⟨by decide, by decide, by decide,
    C12_single_cell_scenario oneLeftGrid 0 2 1 (by decide) (by decide) (by decide)
      (freshSolver zeroRng) zeroRng⟩

/-- C13: for every grid with entries in 0..9 and every solver after a `Reset`, the first
`step` returns with the grid unchanged and its outcome is that of `findBestEmpty`: Solved
with an empty stack when the grid has no empty cell; Failed with an empty stack when
`findBestEmpty` reports Contradiction, which it does when the grid has a single empty cell
with no candidate; otherwise Choose with Depth = 1 and a stack of exactly one frame, for
the selected cell, with cursor 0 and the candidates of the mask in some order. -/
theorem C13_first_step (g : Grid) (hr : InRange g) (s : Solver) (rng : Rng) :
    ∃ r s2, findBestEmpty g = some r ∧ step (s.Reset rng) g = some (s2, g) ∧
      ((∀ i, g i ≠ 0) → s2.last = ⟨ActionKind.ActionSolved, -1, 0, 0, 0⟩ ∧ s2.stack = []) ∧
      (r.ok = false → s2.last = ⟨ActionKind.ActionFailed, -1, 0, 0, 0⟩ ∧ s2.stack = []) ∧
      (∀ i, g i = 0 → (∀ j, g j = 0 → j = i) → candidatesMask g i = some 0 → r.ok = false) ∧
      (r.ok = true → (∃ i, g i = 0) →
        ∃ i cands, r.idx = some i ∧ s2.stack = [⟨i, cands, 0⟩] ∧
          s2.last = ⟨ActionKind.ActionChoose, (i.val : Int), 0, (cands.length : Int), 1⟩ ∧
          List.Perm cands (maskToDigits r.mask)) := by
  obtain ⟨r, hf, hc1, hc2, hc3⟩ := findBestEmpty_spec g hr
  have hnt := reset_not_terminal s rng
  have hdead : ∀ i, g i = 0 → (∀ j, g j = 0 → j = i) → candidatesMask g i = some 0 →
      r.ok = false := by
    intro i hi0 hone hm0
    by_contra hok
    have hok : r.ok = true := by simpa using hok
    cases hidx : r.idx with
    | none => exact (hc2 hok hidx).2 i hi0
    | some k =>
      obtain ⟨hk0, _, hk1, _⟩ := hc3 hok k hidx
      have hki := hone k hk0
      subst hki
      have : candCount g k = 0 := by simp [candCount, maskOf, hm0, onesCount16]
      omega
  cases hok : r.ok with
  | false =>
    refine ⟨r, _, hf, step_of_case _ g _ _ (StepCase.firstFailed r hnt rfl hf hok), ?_,
      fun _ => ⟨rfl, rfl⟩, hdead, fun h => absurd h (by simp [hok])⟩
    intro hfull
    obtain ⟨_, _, i, hi0, _⟩ := hc1 hok
    exact absurd hi0 (hfull i)
  | true =>
    cases hidx : r.idx with
    | none =>
      refine ⟨r, _, hf, step_of_case _ g _ _ (StepCase.firstSolved r hnt rfl hf hok hidx),
        fun _ => ⟨rfl, rfl⟩, fun h => absurd h (by simp [hok]), hdead, ?_⟩
      rintro _ ⟨i, hi0⟩
      exact absurd hi0 ((hc2 hok hidx).2 i)
    | some i =>
      refine ⟨r, _, hf, step_of_case _ g _ _ (StepCase.firstChoose r i hnt rfl hf hok hidx),
        ?_, fun h => absurd h (by simp [hok]), hdead, fun _ _ => ?_⟩
      · intro hfull
        exact absurd (hc3 hok i hidx).1 (hfull i)
      · exact ⟨i, (shuffle (maskToDigits r.mask) rng).1, hidx, rfl, rfl, shuffle_perm _ _⟩

theorem C13_witness :
    InRange deadGrid ∧
    ∃ r s2, findBestEmpty deadGrid = some r ∧
      step ((freshSolver zeroRng).Reset zeroRng) deadGrid = some (s2, deadGrid) ∧
      ((∀ i, deadGrid i ≠ 0) → s2.last = ⟨ActionKind.ActionSolved, -1, 0, 0, 0⟩ ∧ s2.stack = []) ∧
      (r.ok = false → s2.last = ⟨ActionKind.ActionFailed, -1, 0, 0, 0⟩ ∧ s2.stack = []) ∧
      (∀ i, deadGrid i = 0 → (∀ j, deadGrid j = 0 → j = i) →
        candidatesMask deadGrid i = some 0 → r.ok = false) ∧
      (r.ok = true → (∃ i, deadGrid i = 0) →
        ∃ i cands, r.idx = some i ∧ s2.stack = [⟨i, cands, 0⟩] ∧
          s2.last = ⟨ActionKind.ActionChoose, (i.val : Int), 0, (cands.length : Int), 1⟩ ∧
          List.Perm cands (maskToDigits r.mask)) :=
  ⟨by decide, C13_first_step deadGrid (by decide) (freshSolver zeroRng) zeroRng⟩

/-- C14: in one iteration of the clue-removal loop of `newPuzzle` at position `pos`, with
the clue counter above the target, on a grid with entries in 0..9 that satisfies the Grid
invariant: if the grid with cell `pos` cleared has two or more valid completions, the
iteration hands on the same grid (cell `pos` holds its original value, every other cell
is unchanged) and the same clue counter. -/
theorem C14_carve_keeps_clue (puz : Grid) (hr : InRange puz) (hv : ValidGrid puz)
    (pos : Fin 81) (target clues : Int) (hc : target < clues)
    (h2 : 2 ≤ solutionCount (setCell puz pos 0)) (rest : List (Fin 81)) :
    carveLoop target (pos :: rest) puz clues = carveLoop target rest puz clues ∧
      carveLoop target [pos] puz clues = some (puz, clues) := by
  have hr0 : InRange (setCell puz pos 0) := inRange_setCell puz hr pos 0 (le_refl _) (by omega)
  have hv0 : ValidGrid (setCell puz pos 0) := validGrid_clear puz hv pos
  obtain ⟨r, hcall, _, hq2⟩ := countRec_spec 2 (by omega) 82 (setCell puz pos 0) hr0 hv0
    (by have := emptyCount_le (setCell puz pos 0); omega)
  have hr2 : 2 ≤ r := (hq2 (by exact_mod_cast h2)).1
  have hcs : countSolutions (setCell puz pos 0) 2 = some r := by simp [countSolutions, hcall]
  have hne : r ≠ 1 := by omega
  have hstop : ¬ clues ≤ target := by omega
  have hiter : ∀ l, carveLoop target (pos :: l) puz clues = carveLoop target l puz clues := by
    intro l
    conv_lhs => unfold carveLoop
    rw [if_neg hstop]
    simp only [hcs, hne, ne_eq, not_false_eq_true, if_true]
    rw [setCell_setCell, setCell_self]
  exact ⟨hiter rest, by rw [hiter []]; rfl⟩

theorem C14_witness :
    InRange oneClueGrid ∧ ValidGrid oneClueGrid ∧ (0 : Int) < 1 ∧
    2 ≤ solutionCount (setCell oneClueGrid 0 0) ∧
    (carveLoop 0 (0 :: [5, 7]) oneClueGrid 1 = carveLoop 0 [5, 7] oneClueGrid 1 ∧
      carveLoop 0 [0] oneClueGrid 1 = some (oneClueGrid, 1)) :=
  ⟨inRange_oneClueGrid, validGrid_oneClueGrid, by decide, two_le_oneClueGrid,
    C14_carve_keeps_clue oneClueGrid inRange_oneClueGrid validGrid_oneClueGrid 0 0 1
      (by decide) two_le_oneClueGrid [5, 7]⟩

/-! ## Claim on the failure branch of newPuzzle -/

/-- C21: for every random source, hence for every outcome of the shuffles, the call
`fillRandom(&full, g.rng)` of `newPuzzle` on the all-empty grid returns true, so the branch
`if !fillRandom(&full, g.rng)` that logs and returns without a puzzle is never taken. -/
theorem C21_generateFull_true (rng : Rng) :
    ∃ g2 rng2, generateFull rng = some (true, g2, rng2) := by
  obtain ⟨b, g2, r2, hcall, hpf, _⟩ := fillRandom_spec 82 emptyGrid rng inRange_emptyGrid
    validGrid_emptyGrid (by have := emptyCount_le emptyGrid; omega)
  cases b with
  | true => exact ⟨g2, r2, hcall⟩
  | false =>
    exact absurd ⟨solvedGrid, completion_of_empty emptyGrid solvedGrid (fun _ => rfl)
      digits_solvedGrid validGrid_solvedGrid⟩ (hpf rfl).2

end Sugoku
